import Mathlib

/-!
Verification of the `authit` provisioning/session subsystem.

Shallow embedding conventions:
* Rust `String` values are modelled as `List Char` (Rust strings are sequences
  of Unicode scalar values, exactly what Lean `Char` lists are).
* Byte buffers (`Vec<u8>`, `&[u8]`) are modelled as `List Nat` with each
  element `< 256`.
* Timestamps (`u64` Unix seconds / jiff `Timestamp`) are modelled as `Nat`.
* Fallible Rust functions returning `Result` are modelled with `Except`.
* The external HMAC-SHA256 primitive is modelled as an arbitrary deterministic
  function parameter `mac : List Nat → List Nat → List Nat` (key, message);
  the claims about the codec only use its determinism.
-/

namespace Authit

deriving instance DecidableEq for Except

/-! ## Characters used in literals (kept as `Char.ofNat` to stay unambiguous) -/

def quoteChar : Char := Char.ofNat 34
def backslashChar : Char := Char.ofNat 92
def lbraceChar : Char := Char.ofNat 123
def rbraceChar : Char := Char.ofNat 125
def lbrackChar : Char := Char.ofNat 91
def rbrackChar : Char := Char.ofNat 93
def commaChar : Char := Char.ofNat 44
def colonChar : Char := Char.ofNat 58
def dotChar : Char := Char.ofNat 46
def semiChar : Char := Char.ofNat 59
def eqChar : Char := Char.ofNat 61

/-! ## base64url (no padding)

Model of the `base64` crate engine `URL_SAFE_NO_PAD` used by
`types/src/session.rs` and `server/src/lib.rs` / `server/src/uuid_v7.rs`.
Encoding takes 3 bytes to 4 alphabet characters (tail of 1 byte → 2 chars,
2 bytes → 3 chars); decoding is the inverse and rejects invalid characters,
an impossible trailing length of 1, and nonzero trailing bits.
-/

def b64Alphabet : List Char :=
  "ABCDEFGHIJKLMNOPQRSTUVWXYZabcdefghijklmnopqrstuvwxyz0123456789-_".toList

/-- Index lookup in a character list (used to invert the base64 alphabet). -/
def lookupIdx (c : Char) : List Char → Option Nat
  | [] => none
  | a :: t => if a = c then some 0 else (lookupIdx c t).map (· + 1)

def b64Char (n : Nat) : Char := b64Alphabet.getD n (Char.ofNat 65)

def b64Val (c : Char) : Option Nat := lookupIdx c b64Alphabet

def b64Encode : List Nat → List Char
  | [] => []
  | [b0] => [b64Char (b0 / 4), b64Char (b0 % 4 * 16)]
  | [b0, b1] => [b64Char (b0 / 4), b64Char (b0 % 4 * 16 + b1 / 16), b64Char (b1 % 16 * 4)]
  | b0 :: b1 :: b2 :: rest =>
      b64Char (b0 / 4) :: b64Char (b0 % 4 * 16 + b1 / 16) ::
      b64Char (b1 % 16 * 4 + b2 / 64) :: b64Char (b2 % 64) :: b64Encode rest

def b64Decode : List Char → Option (List Nat)
  | [] => some []
  | [_] => none
  | [c0, c1] => do
      let s0 ← b64Val c0
      let s1 ← b64Val c1
      if s1 % 16 = 0 then some [s0 * 4 + s1 / 16] else none
  | [c0, c1, c2] => do
      let s0 ← b64Val c0
      let s1 ← b64Val c1
      let s2 ← b64Val c2
      if s2 % 4 = 0 then some [s0 * 4 + s1 / 16, s1 % 16 * 16 + s2 / 4] else none
  | c0 :: c1 :: c2 :: c3 :: rest => do
      let s0 ← b64Val c0
      let s1 ← b64Val c1
      let s2 ← b64Val c2
      let s3 ← b64Val c3
      let tail ← b64Decode rest
      some ((s0 * 4 + s1 / 16) :: (s1 % 16 * 16 + s2 / 4) :: (s2 % 4 * 64 + s3) :: tail)

theorem b64Val_b64Char_aux :
    (List.range 64).all (fun n => b64Val (b64Char n) == some n) = true := by decide

theorem b64Val_b64Char {n : Nat} (h : n < 64) : b64Val (b64Char n) = some n := by
  have := b64Val_b64Char_aux
  rw [List.all_eq_true] at this
  have h2 := this n (List.mem_range.mpr h)
  simpa using h2

theorem b64chunkDiv (x y k : Nat) (hy : y < k) (hk : 0 < k) :
    (x * k + y) / k = x := by
  rw [Nat.mul_comm x k, Nat.mul_add_div hk]
  have : y / k = 0 := Nat.div_eq_of_lt hy
  omega

theorem b64chunkMod (x y k : Nat) (hy : y < k) :
    (x * k + y) % k = y := by
  rw [Nat.mul_comm x k, Nat.mul_add_mod]
  exact Nat.mod_eq_of_lt hy

theorem b64Decode_b64Encode (l : List Nat) (h : ∀ b ∈ l, b < 256) :
    b64Decode (b64Encode l) = some l := by
  induction l using b64Encode.induct with
  | case1 => rfl
  | case2 b0 =>
    have hb0 : b0 < 256 := h b0 (by simp)
    rw [b64Encode, b64Decode]
    rw [b64Val_b64Char (by omega), b64Val_b64Char (by omega)]
    simp only [Option.bind_eq_bind, Option.some_bind]
    have h1 : b0 % 4 * 16 % 16 = 0 := by
      rw [Nat.mul_mod_left]
    rw [if_pos h1]
    have e2 : b0 % 4 * 16 / 16 = b0 % 4 := Nat.mul_div_cancel _ (by omega)
    rw [e2]
    have f0 : b0 / 4 * 4 + b0 % 4 = b0 := by omega
    rw [f0]
  | case3 b0 b1 =>
    have hb0 : b0 < 256 := h b0 (by simp)
    have hb1 : b1 < 256 := h b1 (by simp)
    rw [b64Encode, b64Decode]
    rw [b64Val_b64Char (by omega), b64Val_b64Char (by omega), b64Val_b64Char (by omega)]
    simp only [Option.bind_eq_bind, Option.some_bind]
    have h1 : b1 % 16 * 4 % 4 = 0 := by
      rw [Nat.mul_mod_left]
    rw [if_pos h1]
    have e0 : (b0 % 4 * 16 + b1 / 16) / 16 = b0 % 4 :=
      b64chunkDiv _ _ _ (by omega) (by omega)
    have e1 : (b0 % 4 * 16 + b1 / 16) % 16 = b1 / 16 :=
      b64chunkMod _ _ _ (by omega)
    have e2 : b1 % 16 * 4 / 4 = b1 % 16 := Nat.mul_div_cancel _ (by omega)
    rw [e0, e1, e2]
    have f0 : b0 / 4 * 4 + b0 % 4 = b0 := by omega
    have f1 : b1 / 16 * 16 + b1 % 16 = b1 := by omega
    rw [f0, f1]
  | case4 b0 b1 b2 rest ih =>
    have hb0 : b0 < 256 := h b0 (by simp)
    have hb1 : b1 < 256 := h b1 (by simp)
    have hb2 : b2 < 256 := h b2 (by simp)
    have hrest : ∀ b ∈ rest, b < 256 := fun b hb => h b (by simp [hb])
    rw [b64Encode, b64Decode]
    rw [b64Val_b64Char (by omega), b64Val_b64Char (by omega), b64Val_b64Char (by omega),
      b64Val_b64Char (by omega), ih hrest]
    simp only [Option.bind_eq_bind, Option.some_bind]
    have e0 : (b0 % 4 * 16 + b1 / 16) / 16 = b0 % 4 :=
      b64chunkDiv _ _ _ (by omega) (by omega)
    have e1 : (b0 % 4 * 16 + b1 / 16) % 16 = b1 / 16 :=
      b64chunkMod _ _ _ (by omega)
    have e2 : (b1 % 16 * 4 + b2 / 64) / 4 = b1 % 16 :=
      b64chunkDiv _ _ _ (by omega) (by omega)
    have e3 : (b1 % 16 * 4 + b2 / 64) % 4 = b2 / 64 :=
      b64chunkMod _ _ _ (by omega)
    rw [e0, e1, e2, e3]
    have f0 : b0 / 4 * 4 + b0 % 4 = b0 := by omega
    have f1 : b1 / 16 * 16 + b1 % 16 = b1 := by omega
    have f2 : b2 / 64 * 64 + b2 % 64 = b2 := by omega
    rw [f0, f1, f2]

/-! ## UTF-8

Rust `String::as_bytes` / `String::from_utf8`, modelled over `List Char`
(Unicode scalar values) and `List Nat` (bytes).  The decoder rejects
continuation errors, overlong encodings, surrogate code points and values
above `0x10FFFF`, as Rust's validation does.
-/

def utf8EncodeChar (c : Char) : List Nat :=
  if c.toNat < 128 then [c.toNat]
  else if c.toNat < 2048 then [192 + c.toNat / 64, 128 + c.toNat % 64]
  else if c.toNat < 65536 then
    [224 + c.toNat / 4096, 128 + c.toNat / 64 % 64, 128 + c.toNat % 64]
  else
    [240 + c.toNat / 262144, 128 + c.toNat / 4096 % 64,
     128 + c.toNat / 64 % 64, 128 + c.toNat % 64]

def utf8Encode : List Char → List Nat
  | [] => []
  | c :: t => utf8EncodeChar c ++ utf8Encode t

def isCont (b : Nat) : Bool := 128 ≤ b && b < 192

def utf8DecodeOne : List Nat → Option (Char × List Nat)
  | [] => none
  | b0 :: t =>
    if b0 < 128 then some (Char.ofNat b0, t)
    else if b0 < 194 then
      -- stray continuation byte (128..191) or overlong 2-byte lead (192/193)
      none
    else if b0 < 224 then
      match t with
      | b1 :: t1 =>
        if isCont b1 then some (Char.ofNat ((b0 - 192) * 64 + (b1 - 128)), t1) else none
      | [] => none
    else if b0 < 240 then
      match t with
      | b1 :: b2 :: t2 =>
        if isCont b1 && isCont b2
            && !(b0 == 224 && decide (b1 < 160))      -- overlong 3-byte
            && !(b0 == 237 && decide (160 ≤ b1)) then -- surrogates U+D800..U+DFFF
          some (Char.ofNat ((b0 - 224) * 4096 + (b1 - 128) * 64 + (b2 - 128)), t2)
        else none
      | _ => none
    else if b0 < 245 then
      match t with
      | b1 :: b2 :: b3 :: t3 =>
        if isCont b1 && isCont b2 && isCont b3
            && !(b0 == 240 && decide (b1 < 144))      -- overlong 4-byte
            && !(b0 == 244 && decide (144 ≤ b1)) then -- above U+10FFFF
          some (Char.ofNat
            ((b0 - 240) * 262144 + (b1 - 128) * 4096 + (b2 - 128) * 64 + (b3 - 128)), t3)
        else none
      | _ => none
    else none

theorem char_toNat_valid (c : Char) :
    c.toNat < 55296 ∨ (57344 ≤ c.toNat ∧ c.toNat < 1114112) := by
  rcases c.valid with h | ⟨h1, h2⟩
  · left
    exact h
  · right
    exact ⟨h1, h2⟩

theorem utf8EncodeChar_lt_256 (c : Char) : ∀ b ∈ utf8EncodeChar c, b < 256 := by
  have hv : c.toNat < 1114112 := by
    rcases char_toNat_valid c with h | ⟨_, h2⟩ <;> omega
  intro b hb
  rw [utf8EncodeChar] at hb
  split at hb
  · simp at hb
    omega
  split at hb
  · simp at hb
    rcases hb with h | h <;> omega
  split at hb
  · simp at hb
    rcases hb with h | h | h <;> omega
  · simp at hb
    rcases hb with h | h | h | h <;> omega

theorem utf8Encode_lt_256 (s : List Char) : ∀ b ∈ utf8Encode s, b < 256 := by
  induction s with
  | nil =>
    intro b hb
    simp [utf8Encode] at hb
  | cons c t ih =>
    intro b hb
    rw [utf8Encode, List.mem_append] at hb
    rcases hb with hb | hb
    · exact utf8EncodeChar_lt_256 c b hb
    · exact ih b hb

set_option maxRecDepth 8192 in
theorem utf8DecodeOne_rest_lt (l : List Nat) (c : Char) (rest : List Nat)
    (h : utf8DecodeOne l = some (c, rest)) : rest.length < l.length := by
  cases l with
  | nil => simp [utf8DecodeOne] at h
  | cons b0 t =>
    simp only [utf8DecodeOne] at h
    repeat' split at h
    all_goals cases h <;> simp only [List.length_cons] <;> omega

def utf8Decode (l : List Nat) : Option (List Char) :=
  match l with
  | [] => some []
  | b0 :: t =>
    match hdo : utf8DecodeOne (b0 :: t) with
    | some (c, rest) => (utf8Decode rest).map (fun cs => c :: cs)
    | none => none
termination_by l.length
decreasing_by
  simp only [List.length_cons]
  have := utf8DecodeOne_rest_lt _ _ _ hdo
  simpa using this

theorem utf8Decode_nil : utf8Decode [] = some [] := by
  rw [utf8Decode]

theorem utf8Decode_cons_step (b0 : Nat) (t : List Nat) (c : Char) (rest : List Nat)
    (h : utf8DecodeOne (b0 :: t) = some (c, rest)) :
    utf8Decode (b0 :: t) = (utf8Decode rest).map (fun cs => c :: cs) := by
  rw [utf8Decode]
  split
  next c2 rest2 heq =>
    rw [h] at heq
    cases heq
    rfl
  next heq =>
    rw [h] at heq
    cases heq

theorem utf8DecodeOne_encodeChar (c : Char) (r : List Nat) :
    utf8DecodeOne (utf8EncodeChar c ++ r) = some (c, r) := by
  have hvalid := char_toNat_valid c
  have hofNat := Char.ofNat_toNat c
  rw [utf8EncodeChar]
  by_cases h1 : c.toNat < 128
  · rw [if_pos h1]
    simp only [List.cons_append, List.nil_append, utf8DecodeOne, if_pos h1]
    rw [hofNat]
  rw [if_neg h1]
  by_cases h2 : c.toNat < 2048
  · rw [if_pos h2]
    have d1 : ¬(192 + c.toNat / 64 < 128) := by omega
    have d2 : ¬(192 + c.toNat / 64 < 194) := by omega
    have d3 : 192 + c.toNat / 64 < 224 := by omega
    have hcont : isCont (128 + c.toNat % 64) = true := by
      simp only [isCont, Bool.and_eq_true, decide_eq_true_eq]
      omega
    simp only [List.cons_append, List.nil_append, utf8DecodeOne, if_neg d1, if_neg d2,
      if_pos d3, hcont, if_true]
    have e : (192 + c.toNat / 64 - 192) * 64 + (128 + c.toNat % 64 - 128) = c.toNat := by
      omega
    rw [e, hofNat]
  rw [if_neg h2]
  by_cases h3 : c.toNat < 65536
  · rw [if_pos h3]
    have d1 : ¬(224 + c.toNat / 4096 < 128) := by omega
    have d2 : ¬(224 + c.toNat / 4096 < 194) := by omega
    have d3 : ¬(224 + c.toNat / 4096 < 224) := by omega
    have d4 : 224 + c.toNat / 4096 < 240 := by omega
    have hguard : (isCont (128 + c.toNat / 64 % 64) && isCont (128 + c.toNat % 64)
        && !(224 + c.toNat / 4096 == 224 && decide (128 + c.toNat / 64 % 64 < 160))
        && !(224 + c.toNat / 4096 == 237 && decide (160 ≤ 128 + c.toNat / 64 % 64))) = true := by
      simp only [isCont, Bool.and_eq_true, Bool.not_eq_true', Bool.and_eq_false_iff,
        decide_eq_true_eq, decide_eq_false_iff_not, beq_eq_false_iff_ne, ne_eq]
      omega
    simp only [List.cons_append, List.nil_append, utf8DecodeOne, if_neg d1, if_neg d2,
      if_neg d3, if_pos d4, hguard, if_true]
    have e : (224 + c.toNat / 4096 - 224) * 4096 + (128 + c.toNat / 64 % 64 - 128) * 64
        + (128 + c.toNat % 64 - 128) = c.toNat := by
      omega
    rw [e, hofNat]
  · rw [if_neg h3]
    have h4 : c.toNat < 1114112 := by
      rcases hvalid with hlt | ⟨_, hub⟩ <;> omega
    have d1 : ¬(240 + c.toNat / 262144 < 128) := by omega
    have d2 : ¬(240 + c.toNat / 262144 < 194) := by omega
    have d3 : ¬(240 + c.toNat / 262144 < 224) := by omega
    have d4 : ¬(240 + c.toNat / 262144 < 240) := by omega
    have d5 : 240 + c.toNat / 262144 < 245 := by omega
    have hguard : (isCont (128 + c.toNat / 4096 % 64) && isCont (128 + c.toNat / 64 % 64)
        && isCont (128 + c.toNat % 64)
        && !(240 + c.toNat / 262144 == 240 && decide (128 + c.toNat / 4096 % 64 < 144))
        && !(240 + c.toNat / 262144 == 244 && decide (144 ≤ 128 + c.toNat / 4096 % 64))) = true := by
      simp only [isCont, Bool.and_eq_true, Bool.not_eq_true', Bool.and_eq_false_iff,
        decide_eq_true_eq, decide_eq_false_iff_not, beq_eq_false_iff_ne, ne_eq]
      omega
    simp only [List.cons_append, List.nil_append, utf8DecodeOne, if_neg d1, if_neg d2,
      if_neg d3, if_neg d4, if_pos d5, hguard, if_true]
    have e : (240 + c.toNat / 262144 - 240) * 262144 + (128 + c.toNat / 4096 % 64 - 128) * 4096
        + (128 + c.toNat / 64 % 64 - 128) * 64 + (128 + c.toNat % 64 - 128) = c.toNat := by
      omega
    rw [e, hofNat]

theorem utf8EncodeChar_ne_nil (c : Char) : utf8EncodeChar c ≠ [] := by
  rw [utf8EncodeChar]
  split
  · simp
  split
  · simp
  split
  · simp
  · simp

theorem utf8Decode_utf8Encode (s : List Char) : utf8Decode (utf8Encode s) = some s := by
  induction s with
  | nil => exact utf8Decode_nil
  | cons c t ih =>
    rw [utf8Encode]
    have hone : utf8DecodeOne (utf8EncodeChar c ++ utf8Encode t) = some (c, utf8Encode t) :=
      utf8DecodeOne_encodeChar c (utf8Encode t)
    have hne : utf8EncodeChar c ≠ [] := utf8EncodeChar_ne_nil c
    cases hec : utf8EncodeChar c with
    | nil => exact absurd hec hne
    | cons b0 bs =>
      rw [hec] at hone
      rw [List.cons_append] at hone ⊢
      rw [utf8Decode_cons_step _ _ _ _ hone, ih]
      rfl

/-! ## JSON string escaping and parsing

Model of `serde_json` string serialization: `"` and `\` are escaped with a
backslash, the control characters BS/TAB/LF/FF/CR get the short escapes
`\b \t \n \f \r`, all other control characters below U+0020 are written as
`\u00XX` with lowercase hex, and every other character is written verbatim.
The parser inverts these escapes (it also accepts the standard `\/` and
general `\uXXXX` escapes below the surrogate range).
-/

def hexDigitChar (n : Nat) : Char :=
  "0123456789abcdef".toList.getD n (Char.ofNat 48)

def hexVal (c : Char) : Option Nat :=
  if 48 ≤ c.toNat ∧ c.toNat ≤ 57 then some (c.toNat - 48)
  else if 97 ≤ c.toNat ∧ c.toNat ≤ 102 then some (c.toNat - 87)
  else if 65 ≤ c.toNat ∧ c.toNat ≤ 70 then some (c.toNat - 55)
  else none

def jsonEscapeChar (c : Char) : List Char :=
  if c.toNat = 34 then [backslashChar, quoteChar]
  else if c.toNat = 92 then [backslashChar, backslashChar]
  else if c.toNat = 8 then [backslashChar, Char.ofNat 98]
  else if c.toNat = 9 then [backslashChar, Char.ofNat 116]
  else if c.toNat = 10 then [backslashChar, Char.ofNat 110]
  else if c.toNat = 12 then [backslashChar, Char.ofNat 102]
  else if c.toNat = 13 then [backslashChar, Char.ofNat 114]
  else if c.toNat < 32 then
    [backslashChar, Char.ofNat 117, Char.ofNat 48, Char.ofNat 48,
     hexDigitChar (c.toNat / 16), hexDigitChar (c.toNat % 16)]
  else [c]

def jsonEscape : List Char → List Char
  | [] => []
  | c :: t => jsonEscapeChar c ++ jsonEscape t

/-- Short escapes accepted after a backslash (`\uXXXX` is handled separately). -/
def unescapeChar (e : Char) : Option Char :=
  if e.toNat = 34 then some quoteChar
  else if e.toNat = 92 then some backslashChar
  else if e.toNat = 47 then some (Char.ofNat 47)
  else if e.toNat = 98 then some (Char.ofNat 8)
  else if e.toNat = 116 then some (Char.ofNat 9)
  else if e.toNat = 110 then some (Char.ofNat 10)
  else if e.toNat = 102 then some (Char.ofNat 12)
  else if e.toNat = 114 then some (Char.ofNat 13)
  else none

theorem hexVal_hexDigitChar_aux :
    (List.range 16).all (fun n => hexVal (hexDigitChar n) == some n) = true := by decide

theorem hexVal_hexDigitChar {n : Nat} (h : n < 16) : hexVal (hexDigitChar n) = some n := by
  have := hexVal_hexDigitChar_aux
  rw [List.all_eq_true] at this
  have h2 := this n (List.mem_range.mpr h)
  simpa using h2

/-- One step of JSON string-literal parsing: either the closing quote
(`done`) or one decoded character (`chr`). -/
inductive StrStep where
  | done (rest : List Char)
  | chr (c : Char) (rest : List Char)

def parseJsonStringOne (l : List Char) : Option StrStep :=
  match l with
  | [] => none
  | c :: t =>
    if c = quoteChar then some (.done t)
    else if c = backslashChar then
      match t with
      | [] => none
      | e :: t1 =>
        if e.toNat = 117 then
          match t1 with
          | d1 :: d2 :: d3 :: d4 :: t2 => do
              let h1 ← hexVal d1
              let h2 ← hexVal d2
              let h3 ← hexVal d3
              let h4 ← hexVal d4
              let v := h1 * 4096 + h2 * 256 + h3 * 16 + h4
              if v < 55296 then some (.chr (Char.ofNat v) t2) else none
          | _ => none
        else (unescapeChar e).map (fun u => .chr u t1)
    else some (.chr c t)

theorem parseJsonStringOne_rest_lt (l : List Char) (u : Char) (rest : List Char)
    (h : parseJsonStringOne l = some (.chr u rest)) : rest.length < l.length := by
  cases l with
  | nil => simp [parseJsonStringOne] at h
  | cons c t =>
    simp only [parseJsonStringOne] at h
    split at h
    · -- closing quote: a `done` step cannot be a `chr` step
      cases h
    split at h
    · -- escape branch
      split at h
      · -- empty tail after the backslash
        cases h
      split at h
      · -- \uXXXX escape
        split at h
        · simp only [Option.bind_eq_bind, Option.bind_eq_some] at h
          obtain ⟨a1, -, a2, -, a3, -, a4, -, hif⟩ := h
          split at hif
          · cases hif
            simp only [List.length_cons]
            omega
          · cases hif
        · cases h
      · -- short escape
        simp only [Option.map_eq_some'] at h
        obtain ⟨u2, -, hu2⟩ := h
        cases hu2
        simp only [List.length_cons]
        omega
    · -- plain character
      cases h
      simp only [List.length_cons]
      omega

/-- Parse the body of a JSON string literal (the opening quote has already
been consumed); returns the decoded string and the input remaining after the
closing quote. -/
def parseJsonString (l : List Char) : Option (List Char × List Char) :=
  match l with
  | [] => none
  | c :: t =>
    match hso : parseJsonStringOne (c :: t) with
    | some (.done rest) => some (([] : List Char), rest)
    | some (.chr u rest) => (parseJsonString rest).map (fun p => (u :: p.1, p.2))
    | none => none
termination_by l.length
decreasing_by
  have := parseJsonStringOne_rest_lt _ _ _ hso
  simpa using this

theorem parseJsonString_done (l rest : List Char)
    (h : parseJsonStringOne l = some (.done rest)) :
    parseJsonString l = some ([], rest) := by
  cases l with
  | nil => simp [parseJsonStringOne] at h
  | cons c t =>
    rw [parseJsonString]
    split
    next heq =>
      rw [h] at heq
      cases heq
      rfl
    next u r2 heq =>
      rw [h] at heq
      cases heq
    next heq =>
      rw [h] at heq
      cases heq

theorem parseJsonString_chr (l : List Char) (u : Char) (rest : List Char)
    (h : parseJsonStringOne l = some (.chr u rest)) :
    parseJsonString l = (parseJsonString rest).map (fun p => (u :: p.1, p.2)) := by
  cases l with
  | nil => simp [parseJsonStringOne] at h
  | cons c t =>
    rw [parseJsonString]
    split
    next heq =>
      rw [h] at heq
      cases heq
    next u2 r2 heq =>
      rw [h] at heq
      cases heq
      rfl
    next heq =>
      rw [h] at heq
      cases heq

theorem psOne_quote (r : List Char) :
    parseJsonStringOne (quoteChar :: r) = some (.done r) := by
  simp [parseJsonStringOne]

theorem psOne_escape_pair (x u : Char) (hx : x.toNat ≠ 117)
    (hu : unescapeChar x = some u) (l : List Char) :
    parseJsonStringOne (backslashChar :: x :: l) = some (.chr u l) := by
  have hne : ¬(backslashChar = quoteChar) := by decide
  simp only [parseJsonStringOne]
  simp [hne, hx, hu]

theorem psOne_u (v : Nat) (hv : v < 32) (l : List Char) :
    parseJsonStringOne (backslashChar :: Char.ofNat 117 :: Char.ofNat 48 :: Char.ofNat 48 ::
      hexDigitChar (v / 16) :: hexDigitChar (v % 16) :: l) = some (.chr (Char.ofNat v) l) := by
  have hne : ¬(backslashChar = quoteChar) := by decide
  have h117 : (Char.ofNat 117).toNat = 117 := by decide
  have hv0 : hexVal (Char.ofNat 48) = some 0 := by decide
  have hd3 : hexVal (hexDigitChar (v / 16)) = some (v / 16) := hexVal_hexDigitChar (by omega)
  have hd4 : hexVal (hexDigitChar (v % 16)) = some (v % 16) := hexVal_hexDigitChar (by omega)
  have hlt : v / 16 * 16 + v % 16 < 55296 := by omega
  have e : v / 16 * 16 + v % 16 = v := by omega
  simp only [parseJsonStringOne]
  simp [hne, h117, hv0, hd3, hd4, hlt, e]
  omega

theorem psOne_plain (c : Char) (h34 : c.toNat ≠ 34) (h92 : c.toNat ≠ 92) (l : List Char) :
    parseJsonStringOne (c :: l) = some (.chr c l) := by
  have hofNat := Char.ofNat_toNat c
  have hq : ¬(c = quoteChar) := by
    intro hc
    rw [hc] at h34
    exact h34 rfl
  have hb : ¬(c = backslashChar) := by
    intro hc
    rw [hc] at h92
    exact h92 rfl
  simp only [parseJsonStringOne]
  simp [hq, hb]

theorem parseJsonString_jsonEscape (s r : List Char) :
    parseJsonString (jsonEscape s ++ (quoteChar :: r)) = some (s, r) := by
  induction s with
  | nil =>
    rw [jsonEscape, List.nil_append]
    exact parseJsonString_done _ _ (psOne_quote r)
  | cons c t ih =>
    rw [jsonEscape, List.append_assoc]
    rw [jsonEscapeChar]
    have hofNat := Char.ofNat_toNat c
    by_cases e34 : c.toNat = 34
    · rw [if_pos e34]
      have hc : c = quoteChar := by rw [← hofNat, e34]; rfl
      rw [List.cons_append, List.cons_append, List.nil_append]
      rw [parseJsonString_chr _ _ _ (psOne_escape_pair quoteChar quoteChar (by decide)
        (by decide) _), ih, hc]
      rfl
    rw [if_neg e34]
    by_cases e92 : c.toNat = 92
    · rw [if_pos e92]
      have hc : c = backslashChar := by rw [← hofNat, e92]; rfl
      rw [List.cons_append, List.cons_append, List.nil_append]
      rw [parseJsonString_chr _ _ _ (psOne_escape_pair backslashChar backslashChar (by decide)
        (by decide) _), ih, hc]
      rfl
    rw [if_neg e92]
    by_cases e8 : c.toNat = 8
    · rw [if_pos e8]
      have hc : c = Char.ofNat 8 := by rw [← hofNat, e8]
      rw [List.cons_append, List.cons_append, List.nil_append]
      rw [parseJsonString_chr _ _ _ (psOne_escape_pair (Char.ofNat 98) (Char.ofNat 8)
        (by decide) (by decide) _), ih, hc]
      rfl
    rw [if_neg e8]
    by_cases e9 : c.toNat = 9
    · rw [if_pos e9]
      have hc : c = Char.ofNat 9 := by rw [← hofNat, e9]
      rw [List.cons_append, List.cons_append, List.nil_append]
      rw [parseJsonString_chr _ _ _ (psOne_escape_pair (Char.ofNat 116) (Char.ofNat 9)
        (by decide) (by decide) _), ih, hc]
      rfl
    rw [if_neg e9]
    by_cases e10 : c.toNat = 10
    · rw [if_pos e10]
      have hc : c = Char.ofNat 10 := by rw [← hofNat, e10]
      rw [List.cons_append, List.cons_append, List.nil_append]
      rw [parseJsonString_chr _ _ _ (psOne_escape_pair (Char.ofNat 110) (Char.ofNat 10)
        (by decide) (by decide) _), ih, hc]
      rfl
    rw [if_neg e10]
    by_cases e12 : c.toNat = 12
    · rw [if_pos e12]
      have hc : c = Char.ofNat 12 := by rw [← hofNat, e12]
      rw [List.cons_append, List.cons_append, List.nil_append]
      rw [parseJsonString_chr _ _ _ (psOne_escape_pair (Char.ofNat 102) (Char.ofNat 12)
        (by decide) (by decide) _), ih, hc]
      rfl
    rw [if_neg e12]
    by_cases e13 : c.toNat = 13
    · rw [if_pos e13]
      have hc : c = Char.ofNat 13 := by rw [← hofNat, e13]
      rw [List.cons_append, List.cons_append, List.nil_append]
      rw [parseJsonString_chr _ _ _ (psOne_escape_pair (Char.ofNat 114) (Char.ofNat 13)
        (by decide) (by decide) _), ih, hc]
      rfl
    rw [if_neg e13]
    by_cases ectl : c.toNat < 32
    · rw [if_pos ectl]
      simp only [List.cons_append, List.nil_append]
      rw [parseJsonString_chr _ _ _ (psOne_u c.toNat ectl _), ih, hofNat]
      rfl
    · rw [if_neg ectl]
      rw [List.cons_append, List.nil_append]
      rw [parseJsonString_chr _ _ _ (psOne_plain c e34 e92 _), ih]
      rfl

/-! ## JSON arrays of strings and the `UserSession` object

`serde_json::to_string` for `UserSession` (declaring struct
`types/src/session.rs`) emits the canonical compact form
`\x7b"user_id":...,"username":...,"display_name":...,"groups":[...],"access_token":...\x7d`
with the fields in declaration order (the `access_token` field uses the
custom `secret_string` serializer, which writes the plain string).  The
parser below models `serde_json::from_str::<UserSession>` on this canonical
layout; the array parser carries a fuel argument that callers instantiate
with the input length, which is always a sufficient bound because every
array element consumes at least one input character.
-/

def jsonStringLit (s : List Char) : List Char :=
  quoteChar :: (jsonEscape s ++ [quoteChar])

def groupsJsonRest : List (List Char) → List Char
  | [] => [rbrackChar]
  | g :: t => commaChar :: (jsonStringLit g ++ groupsJsonRest t)

def groupsJson : List (List Char) → List Char
  | [] => [lbrackChar, rbrackChar]
  | g :: t => lbrackChar :: (jsonStringLit g ++ groupsJsonRest t)

/-- Parse a string literal including its opening quote. -/
def parseStringLit (l : List Char) : Option (List Char × List Char) :=
  match l with
  | q :: t => if q = quoteChar then parseJsonString t else none
  | [] => none

/-- Parse the continuation of a non-empty array: a `]` or `,` followed by
another string element. -/
def parseJsonArrayRest : Nat → List Char → Option (List (List Char) × List Char)
  | _, [] => none
  | 0, _ :: _ => none
  | fuel + 1, c :: t =>
    if c = rbrackChar then some ([], t)
    else if c = commaChar then do
      let p ← parseStringLit t
      let p2 ← parseJsonArrayRest fuel p.2
      some (p.1 :: p2.1, p2.2)
    else none

/-- Parse a JSON array of strings including its brackets. -/
def parseJsonArray (fuel : Nat) (l : List Char) : Option (List (List Char) × List Char) :=
  match l with
  | lb :: c :: t =>
    if lb = lbrackChar then
      if c = rbrackChar then some ([], t)
      else do
        let p ← parseStringLit (c :: t)
        let p2 ← parseJsonArrayRest fuel p.2
        some (p.1 :: p2.1, p2.2)
    else none
  | _ => none

def expectLit : List Char → List Char → Option (List Char)
  | [], l => some l
  | _ :: _, [] => none
  | c :: p, x :: l => if x = c then expectLit p l else none

theorem expectLit_append (p r : List Char) : expectLit p (p ++ r) = some r := by
  induction p with
  | nil => rfl
  | cons c t ih =>
    rw [List.cons_append, expectLit, if_pos rfl, ih]

theorem parseStringLit_jsonStringLit (v r : List Char) :
    parseStringLit (jsonStringLit v ++ r) = some (v, r) := by
  have e : jsonStringLit v ++ r = quoteChar :: (jsonEscape v ++ (quoteChar :: r)) := by
    simp [jsonStringLit]
  rw [e, parseStringLit, if_pos rfl, parseJsonString_jsonEscape]

theorem parseJsonArrayRest_groupsJsonRest (gs : List (List Char)) :
    ∀ (fuel : Nat) (r : List Char), gs.length < fuel →
      parseJsonArrayRest fuel (groupsJsonRest gs ++ r) = some (gs, r) := by
  induction gs with
  | nil =>
    intro fuel r hf
    match fuel with
    | f + 1 =>
      rw [groupsJsonRest, List.cons_append, List.nil_append, parseJsonArrayRest, if_pos rfl]
  | cons g t ih =>
    intro fuel r hf
    match fuel with
    | f + 1 =>
      rw [groupsJsonRest, List.cons_append, List.append_assoc, parseJsonArrayRest,
        if_neg (by decide), if_pos rfl]
      rw [parseStringLit_jsonStringLit]
      have ht : t.length < f := by
        simp only [List.length_cons] at hf
        omega
      simp only [Option.bind_eq_bind, Option.some_bind]
      rw [ih f r ht]
      simp only [Option.bind_eq_bind, Option.some_bind]

theorem parseJsonArray_groupsJson (gs : List (List Char)) (fuel : Nat) (r : List Char)
    (hf : gs.length ≤ fuel) :
    parseJsonArray fuel (groupsJson gs ++ r) = some (gs, r) := by
  cases gs with
  | nil =>
    rw [groupsJson]
    rw [show ([lbrackChar, rbrackChar] : List Char) ++ r = lbrackChar :: rbrackChar :: r from
      rfl]
    rw [parseJsonArray, if_pos rfl, if_pos rfl]
  | cons g t =>
    rw [groupsJson, List.cons_append, List.append_assoc]
    have hq : jsonStringLit g ++ (groupsJsonRest t ++ r)
        = quoteChar :: (jsonEscape g ++ (quoteChar :: (groupsJsonRest t ++ r))) := by
      simp [jsonStringLit]
    rw [hq, parseJsonArray, if_pos rfl, if_neg (by decide)]
    rw [← hq, parseStringLit_jsonStringLit]
    have ht : t.length < fuel := by
      simp only [List.length_cons] at hf
      omega
    simp only [Option.bind_eq_bind, Option.some_bind]
    rw [parseJsonArrayRest_groupsJsonRest t fuel r ht]
    simp only [Option.bind_eq_bind, Option.some_bind]

theorem groupsJsonRest_length (t : List (List Char)) :
    t.length < (groupsJsonRest t).length := by
  induction t with
  | nil => simp [groupsJsonRest]
  | cons g t ih =>
    simp only [groupsJsonRest, List.length_cons, List.length_append]
    omega

theorem groupsJson_length (gs : List (List Char)) :
    gs.length ≤ (groupsJson gs).length := by
  cases gs with
  | nil => simp [groupsJson]
  | cons g t =>
    have := groupsJsonRest_length t
    simp only [groupsJson, List.length_cons, List.length_append]
    omega

/-! ## `UserSession` (types/src/session.rs) -/

structure UserSession where
  user_id : List Char
  username : List Char
  display_name : List Char
  groups : List (List Char)
  access_token : List Char
deriving DecidableEq, Repr

def kUserId : List Char := "user_id".toList
def kUsername : List Char := "username".toList
def kDisplayName : List Char := "display_name".toList
def kGroups : List Char := "groups".toList
def kAccessToken : List Char := "access_token".toList

def keyLit (k : List Char) : List Char :=
  quoteChar :: (k ++ [quoteChar, colonChar])

/-- A cons distributing over an append, oriented for grouping a parser literal. -/
theorem consAppend (c : Char) (a b : List Char) : c :: (a ++ b) = (c :: a) ++ b :=
  (List.cons_append c a b).symm

/-- `serde_json::to_string` for `UserSession` (canonical compact output,
fields in declaration order). -/
def sessionJson (s : UserSession) : List Char :=
  let f5 := keyLit kAccessToken ++ (jsonStringLit s.access_token ++ [rbraceChar])
  let f4 := keyLit kGroups ++ (groupsJson s.groups ++ (commaChar :: f5))
  let f3 := keyLit kDisplayName ++ (jsonStringLit s.display_name ++ (commaChar :: f4))
  let f2 := keyLit kUsername ++ (jsonStringLit s.username ++ (commaChar :: f3))
  lbraceChar :: (keyLit kUserId ++ (jsonStringLit s.user_id ++ (commaChar :: f2)))

/-- `serde_json::from_str::<UserSession>` on the canonical layout. -/
def parseUserSession (l : List Char) : Option UserSession := do
  let l1 ← expectLit (lbraceChar :: keyLit kUserId) l
  let p1 ← parseStringLit l1
  let l2 ← expectLit (commaChar :: keyLit kUsername) p1.2
  let p2 ← parseStringLit l2
  let l3 ← expectLit (commaChar :: keyLit kDisplayName) p2.2
  let p3 ← parseStringLit l3
  let l4 ← expectLit (commaChar :: keyLit kGroups) p3.2
  let pg ← parseJsonArray l4.length l4
  let l5 ← expectLit (commaChar :: keyLit kAccessToken) pg.2
  let p5 ← parseStringLit l5
  let l6 ← expectLit [rbraceChar] p5.2
  if l6 = [] then some ⟨p1.1, p2.1, p3.1, pg.1, p5.1⟩ else none

theorem parseUserSession_sessionJson (s : UserSession) :
    parseUserSession (sessionJson s) = some s := by
  rw [parseUserSession, sessionJson]
  rw [consAppend lbraceChar (keyLit kUserId), expectLit_append]
  simp only [Option.bind_eq_bind, Option.some_bind]
  rw [parseStringLit_jsonStringLit]
  simp only [Option.bind_eq_bind, Option.some_bind]
  rw [consAppend commaChar (keyLit kUsername), expectLit_append]
  simp only [Option.bind_eq_bind, Option.some_bind]
  rw [parseStringLit_jsonStringLit]
  simp only [Option.bind_eq_bind, Option.some_bind]
  rw [consAppend commaChar (keyLit kDisplayName), expectLit_append]
  simp only [Option.bind_eq_bind, Option.some_bind]
  rw [parseStringLit_jsonStringLit]
  simp only [Option.bind_eq_bind, Option.some_bind]
  rw [consAppend commaChar (keyLit kGroups), expectLit_append]
  simp only [Option.bind_eq_bind, Option.some_bind]
  rw [parseJsonArray_groupsJson s.groups _ _ (by
    have h1 := groupsJson_length s.groups
    simp only [List.length_append]
    omega)]
  simp only [Option.bind_eq_bind, Option.some_bind]
  rw [consAppend commaChar (keyLit kAccessToken), expectLit_append]
  simp only [Option.bind_eq_bind, Option.some_bind]
  rw [parseStringLit_jsonStringLit]
  simp only [Option.bind_eq_bind, Option.some_bind]
  rw [show expectLit [rbraceChar] [rbraceChar] = some [] from rfl]
  simp only [Option.bind_eq_bind, Option.some_bind]
  rfl

/-! ## Session cookie codec (types/src/session.rs)

`encode_session` serializes the session to JSON and base64url-encodes the
bytes; `decode_session` is base64url decode, then `String::from_utf8`, then
`serde_json::from_str`.  The Rust `encode_session` returns a `Result` whose
error case is unreachable for this struct (string-keyed, no fallible
serializers), so it is modelled as total.  No key or secret is involved in
either direction.
-/

def SESSION_COOKIE_NAME : List Char := "authit_session".toList

inductive SessionError where
  | invalidSession
  | notFound
deriving DecidableEq, Repr

def UserSession.is_in_group (s : UserSession) (group : List Char) : Bool :=
  s.groups.any (fun g => g == group)

def encode_session (s : UserSession) : List Char :=
  b64Encode (utf8Encode (sessionJson s))

def decode_session (encoded : List Char) : Except SessionError UserSession :=
  match b64Decode encoded with
  | none => .error .invalidSession
  | some bytes =>
    match utf8Decode bytes with
    | none => .error .invalidSession
    | some json =>
      match parseUserSession json with
      | some s => .ok s
      | none => .error .invalidSession

theorem decode_session_encode_session (s : UserSession) :
    decode_session (encode_session s) = .ok s := by
  rw [encode_session, decode_session]
  rw [b64Decode_b64Encode _ (utf8Encode_lt_256 _)]
  simp only [utf8Decode_utf8Encode, parseUserSession_sessionJson]

/-! ## Server configuration (server/src/config.rs) -/

structure Config where
  kanidm_url : List Char
  kanidm_token : List Char
  oauth_client_id : List Char
  oauth_client_secret : List Char
  oauth_redirect_uri : List Char
  session_secret : List Char
  admin_group : List Char
  data_dir : List Char
deriving DecidableEq, Repr

/-! ## Session resolution from the cookie (server/src/lib.rs)

`get_session_from_cookie` splits the `Cookie` header on `;`, trims each
piece, strips the `authit_session=` name and decodes the remaining value
with `decode_session` — no signature check and no server-side lookup.
`require_admin_session` then only checks membership of the configured admin
group.  The error constructors correspond to the `eyre!` messages in the
source ("no cookies in request", "invalid session cookie",
"session cookie not found", "access denied: ...").
-/

inductive AuthError where
  | noCookieHeader
  | invalidSessionCookie
  | cookieNotFound
  | accessDenied
deriving DecidableEq, Repr

def trimChars (l : List Char) : List Char :=
  ((l.dropWhile (fun c => c.isWhitespace)).reverse.dropWhile
    (fun c => c.isWhitespace)).reverse

def splitOnChar (sep : Char) (l : List Char) : List (List Char) :=
  match l with
  | [] => [[]]
  | c :: t =>
    if c = sep then [] :: splitOnChar sep t
    else
      let r := splitOnChar sep t
      (c :: r.headD []) :: r.tail

def cookieNameEq : List Char := SESSION_COOKIE_NAME ++ [eqChar]

def findSessionCookie : List (List Char) → Except AuthError UserSession
  | [] => .error .cookieNotFound
  | piece :: rest =>
    (expectLit cookieNameEq (trimChars piece)).elim
      (findSessionCookie rest)
      (fun value => (decode_session value).mapError (fun _ => .invalidSessionCookie))

def get_session_from_cookie (cookieHeader : Option (List Char)) :
    Except AuthError UserSession :=
  match cookieHeader with
  | none => .error .noCookieHeader
  | some header => findSessionCookie (splitOnChar semiChar header)

def require_admin_session (cookieHeader : Option (List Char)) (config : Config) :
    Except AuthError UserSession :=
  match get_session_from_cookie cookieHeader with
  | .error e => .error e
  | .ok session =>
    if session.is_in_group config.admin_group then .ok session
    else .error .accessDenied

/-! Supporting lemmas: a base64url value contains no `;`, no whitespace and
no `=`, so the forged cookie header survives splitting, trimming and name
stripping intact. -/

theorem b64Alphabet_ok :
    b64Alphabet.all
      (fun ch => ch != semiChar && !ch.isWhitespace && ch != eqChar) = true := by decide

theorem b64Char_mem {n : Nat} (h : n < 64) : b64Char n ∈ b64Alphabet := by
  rw [b64Char]
  have hlen : n < b64Alphabet.length := by
    have : b64Alphabet.length = 64 := by decide
    omega
  rw [List.getD_eq_getElem _ _ hlen]
  exact List.getElem_mem hlen

theorem b64Encode_mem_alphabet (l : List Nat) (hl : ∀ b ∈ l, b < 256) :
    ∀ ch ∈ b64Encode l, ch ∈ b64Alphabet := by
  induction l using b64Encode.induct with
  | case1 =>
    intro ch hch
    simp [b64Encode] at hch
  | case2 b0 =>
    have hb0 : b0 < 256 := hl b0 (by simp)
    intro ch hch
    rw [b64Encode] at hch
    simp only [List.mem_cons, List.not_mem_nil, or_false] at hch
    rcases hch with h | h <;> (subst h; exact b64Char_mem (by omega))
  | case3 b0 b1 =>
    have hb0 : b0 < 256 := hl b0 (by simp)
    have hb1 : b1 < 256 := hl b1 (by simp)
    intro ch hch
    rw [b64Encode] at hch
    simp only [List.mem_cons, List.not_mem_nil, or_false] at hch
    rcases hch with h | h | h <;> (subst h; exact b64Char_mem (by omega))
  | case4 b0 b1 b2 rest ih =>
    have hb0 : b0 < 256 := hl b0 (by simp)
    have hb1 : b1 < 256 := hl b1 (by simp)
    have hb2 : b2 < 256 := hl b2 (by simp)
    have hrest : ∀ b ∈ rest, b < 256 := fun b hb => hl b (by simp [hb])
    intro ch hch
    rw [b64Encode] at hch
    simp only [List.mem_cons] at hch
    rcases hch with h | h | h | h | h
    · subst h; exact b64Char_mem (by omega)
    · subst h; exact b64Char_mem (by omega)
    · subst h; exact b64Char_mem (by omega)
    · subst h; exact b64Char_mem (by omega)
    · exact ih hrest ch h

theorem splitOnChar_of_not_mem (sep : Char) (l : List Char) (h : sep ∉ l) :
    splitOnChar sep l = [l] := by
  induction l with
  | nil => rfl
  | cons c t ih =>
    have hc : ¬(c = sep) := by
      intro hc
      exact h (by simp [hc])
    have ht : sep ∉ t := fun hm => h (by simp [hm])
    rw [splitOnChar]
    simp only [if_neg hc, ih ht]
    rfl

theorem dropWhile_eq_self_of_none (p : Char → Bool) (l : List Char)
    (h : ∀ c ∈ l, p c = false) : l.dropWhile p = l := by
  cases l with
  | nil => rfl
  | cons c t =>
    rw [List.dropWhile_cons, h c (by simp)]
    simp

theorem trimChars_of_no_ws (l : List Char) (h : ∀ c ∈ l, c.isWhitespace = false) :
    trimChars l = l := by
  rw [trimChars, dropWhile_eq_self_of_none _ _ h]
  rw [dropWhile_eq_self_of_none _ _ (fun c hc => h c (List.mem_reverse.mp hc))]
  exact List.reverse_reverse l

theorem mem_b64Alphabet_props (ch : Char) (h : ch ∈ b64Alphabet) :
    (ch = semiChar → False) ∧ ch.isWhitespace = false ∧ (ch = eqChar → False) := by
  have hall := b64Alphabet_ok
  rw [List.all_eq_true] at hall
  have h2 := hall ch h
  simp only [Bool.and_eq_true, bne_iff_ne, ne_eq, Bool.not_eq_true'] at h2
  exact ⟨h2.1.1, h2.1.2, h2.2⟩

theorem cookieName_chars :
    (SESSION_COOKIE_NAME ++ [eqChar]).all
      (fun ch => ch != semiChar && !ch.isWhitespace) = true := by decide

/-- C1: with sessions resolved from the cookie value itself
(`decode_session` in types/src/session.rs, used by
`get_session_from_cookie` in server/src/lib.rs), the admin gate is a
function of the client cookie and the configured admin group alone:
(1) `decode_session` inverts `encode_session` on every `UserSession`
without any key; (2) `require_admin_session` gives identical results under
any two configurations that agree on the admin group, whatever their
`session_secret`s; (3) for every configuration an attacker-constructed
cookie value — `encode_session` of a session whose groups list contains the
admin group — makes `require_admin_session` succeed. -/
theorem C1_session_forgery :
    (∀ s : UserSession, decode_session (encode_session s) = .ok s)
    ∧ (∀ (hdr : Option (List Char)) (c1 c2 : Config), c1.admin_group = c2.admin_group →
        require_admin_session hdr c1 = require_admin_session hdr c2)
    ∧ (∀ c : Config, ∃ forged : List Char, ∃ s : UserSession,
        s.groups = [c.admin_group]
        ∧ forged = SESSION_COOKIE_NAME ++ (eqChar :: encode_session s)
        ∧ require_admin_session (some forged) c = .ok s) := by
  refine ⟨decode_session_encode_session, ?_, ?_⟩
  · intro hdr c1 c2 hadmin
    simp only [require_admin_session, hadmin]
  · intro c
    refine ⟨_, ⟨[], [], [], [c.admin_group], []⟩, rfl, rfl, ?_⟩
    have hchars : ∀ ch ∈ SESSION_COOKIE_NAME
        ++ (eqChar :: encode_session ⟨[], [], [], [c.admin_group], []⟩),
        (ch = semiChar → False) ∧ ch.isWhitespace = false := by
      intro ch hch
      rw [show SESSION_COOKIE_NAME ++ (eqChar :: encode_session ⟨[], [], [], [c.admin_group], []⟩)
          = (SESSION_COOKIE_NAME ++ [eqChar])
            ++ encode_session ⟨[], [], [], [c.admin_group], []⟩ from by simp] at hch
      rw [List.mem_append] at hch
      rcases hch with h | h
      · have hall := cookieName_chars
        rw [List.all_eq_true] at hall
        have h2 := hall ch h
        simp only [Bool.and_eq_true, bne_iff_ne, ne_eq, Bool.not_eq_true'] at h2
        exact ⟨h2.1, h2.2⟩
      · have hmem : ch ∈ b64Alphabet :=
          b64Encode_mem_alphabet _ (utf8Encode_lt_256 _) ch h
        have h3 := mem_b64Alphabet_props ch hmem
        exact ⟨h3.1, h3.2.1⟩
    have hsemi : semiChar ∉ SESSION_COOKIE_NAME
        ++ (eqChar :: encode_session ⟨[], [], [], [c.admin_group], []⟩) := by
      intro hmem
      exact (hchars _ hmem).1 rfl
    have hws : ∀ ch ∈ SESSION_COOKIE_NAME
        ++ (eqChar :: encode_session ⟨[], [], [], [c.admin_group], []⟩),
        ch.isWhitespace = false := fun ch hm => (hchars ch hm).2
    rw [require_admin_session, get_session_from_cookie]
    rw [splitOnChar_of_not_mem _ _ hsemi]
    rw [findSessionCookie]
    rw [trimChars_of_no_ws _ hws]
    rw [show SESSION_COOKIE_NAME ++ (eqChar :: encode_session ⟨[], [], [], [c.admin_group], []⟩)
        = cookieNameEq ++ encode_session ⟨[], [], [], [c.admin_group], []⟩ from by
      simp [cookieNameEq]]
    rw [expectLit_append]
    simp only [Option.elim]
    rw [decode_session_encode_session]
    simp [UserSession.is_in_group, Except.mapError]

def demoSession : UserSession :=
  ⟨"u1".toList, "alice".toList, "Alice".toList,
   ["authit_admin@example.com".toList], "tok".toList⟩

def demoConfigA : Config :=
  ⟨"https://idm".toList, "ktok".toList, "authit".toList, "csecret".toList,
   "https://authit/auth/callback".toList, "secret-one".toList,
   "authit_admin".toList, "/var/lib/authit".toList⟩

def demoConfigB : Config :=
  ⟨"https://idm".toList, "ktok".toList, "authit".toList, "csecret".toList,
   "https://authit/auth/callback".toList, "a-different-secret".toList,
   "authit_admin".toList, "/var/lib/authit".toList⟩

/-- Witness for C1 at concrete inputs: the two demo configurations differ
only in `session_secret`. -/
theorem C1_session_forgery_witness :
    decode_session (encode_session demoSession) = .ok demoSession
    ∧ require_admin_session (some "x".toList) demoConfigA
      = require_admin_session (some "x".toList) demoConfigB
    ∧ (∃ forged : List Char, ∃ s : UserSession,
        s.groups = [demoConfigA.admin_group]
        ∧ forged = SESSION_COOKIE_NAME ++ (eqChar :: encode_session s)
        ∧ require_admin_session (some forged) demoConfigA = .ok s) :=
  ⟨C1_session_forgery.1 demoSession,
   C1_session_forgery.2.1 (some "x".toList) demoConfigA demoConfigB rfl,
   C1_session_forgery.2.2 demoConfigA⟩

/-! ## Provision records (types/src/provision.rs) -/

structure ProvisionRecord where
  id : List Nat            -- UUID bytes (16 bytes)
  expires_at : Nat         -- unix seconds (u64)
  max_uses : Option Nat    -- Option<u32>
  use_count : Nat          -- u32
  created_at : Nat         -- unix seconds (u64)
deriving DecidableEq, Repr

/-- `ProvisionRecord::new`; `now` is the `SystemTime::now()` observation. -/
def ProvisionRecord.new (id : List Nat) (now duration_seconds : Nat)
    (max_uses : Option Nat) : ProvisionRecord :=
  ⟨id, now + duration_seconds, max_uses, 0, now⟩

def ProvisionRecord.is_expired (r : ProvisionRecord) (now : Nat) : Bool :=
  now > r.expires_at

def ProvisionRecord.is_exhausted (r : ProvisionRecord) : Bool :=
  match r.max_uses with
  | some m => decide (r.use_count ≥ m)
  | none => false

def ProvisionRecord.uses_remaining (r : ProvisionRecord) : Option Nat :=
  r.max_uses.map (fun m => m - r.use_count)

structure ProvisionLinkInfo where
  id : List Nat
  expires_at : Nat
  max_uses : Option Nat
  uses_remaining : Option Nat
deriving DecidableEq, Repr

def ProvisionLinkInfo.ofRecord (r : ProvisionRecord) : ProvisionLinkInfo :=
  ⟨r.id, r.expires_at, r.max_uses, r.uses_remaining⟩

/-! ## Generic keyed store

Both backends are modelled as association lists keyed by the 16 UUID bytes;
`insertStore` replaces any existing entry for the key (redb `insert` /
SQL `INSERT`-or-`UPDATE` granularity used by the code).
-/

def lookupStore {α : Type} (st : List (List Nat × α)) (id : List Nat) : Option α :=
  (st.find? (fun p => p.1 == id)).map (fun p => p.2)

def insertStore {α : Type} (st : List (List Nat × α)) (id : List Nat) (v : α) :
    List (List Nat × α) :=
  st.filter (fun p => p.1 != id) ++ [(id, v)]

def removeStore {α : Type} (st : List (List Nat × α)) (id : List Nat) :
    List (List Nat × α) :=
  st.filter (fun p => p.1 != id)

theorem find_filter_ne {α : Type} (st : List (List Nat × α)) (id q : List Nat)
    (h : ¬(q = id)) :
    (st.filter (fun p => p.1 != id)).find? (fun p => p.1 == q)
      = st.find? (fun p => p.1 == q) := by
  induction st with
  | nil => rfl
  | cons x t ih =>
    by_cases hx : x.1 = q
    · have hne : (x.1 != id) = true := by
        simp only [bne_iff_ne, ne_eq, hx]
        exact h
      rw [List.filter_cons, if_pos hne]
      rw [List.find?_cons_of_pos _ (by simp [hx]), List.find?_cons_of_pos _ (by simp [hx])]
    · by_cases hid : x.1 = id
      · rw [List.filter_cons, if_neg (by simp [hid])]
        rw [List.find?_cons_of_neg _ (by simp [hx]), ih]
      · rw [List.filter_cons, if_pos (by simp [hid])]
        rw [List.find?_cons_of_neg _ (by simp [hx]), List.find?_cons_of_neg _ (by simp [hx]),
          ih]

theorem find_filter_self {α : Type} (st : List (List Nat × α)) (id : List Nat) :
    (st.filter (fun p => p.1 != id)).find? (fun p => p.1 == id) = none := by
  rw [List.find?_eq_none]
  intro p hp
  rw [List.mem_filter] at hp
  have h2 := hp.2
  simp only [bne_iff_ne, ne_eq] at h2
  simp [h2]

theorem lookup_insert_self {α : Type} (st : List (List Nat × α)) (id : List Nat) (v : α) :
    lookupStore (insertStore st id v) id = some v := by
  rw [lookupStore, insertStore, List.find?_append, find_filter_self, Option.none_or]
  rw [List.find?_cons_of_pos _ (by simp)]
  rfl

theorem lookup_insert_ne {α : Type} (st : List (List Nat × α)) (id q : List Nat) (v : α)
    (h : ¬(q = id)) :
    lookupStore (insertStore st id v) q = lookupStore st q := by
  rw [lookupStore, insertStore, List.find?_append, find_filter_ne st id q h, lookupStore]
  cases hf : st.find? (fun p => p.1 == q) with
  | some p => rw [Option.or_some]
  | none =>
    rw [Option.none_or]
    rw [List.find?_cons_of_neg _ (by
      simp only [beq_iff_eq]
      exact fun hh => h hh.symm)]
    rfl

theorem lookup_remove_self {α : Type} (st : List (List Nat × α)) (id : List Nat) :
    lookupStore (removeStore st id) id = none := by
  rw [lookupStore, removeStore, find_filter_self]
  rfl

theorem lookup_remove_ne {α : Type} (st : List (List Nat × α)) (id q : List Nat)
    (h : ¬(q = id)) :
    lookupStore (removeStore st id) q = lookupStore st q := by
  rw [lookupStore, removeStore, find_filter_ne st id q h, lookupStore]

/-! ## redb provision-link storage (server/src/storage.rs)

All operations run inside one redb write transaction.  An early `return
Err(..)` drops the transaction before `commit()`, and redb aborts an
uncommitted write transaction, so the `table.remove` calls in the
expired/exhausted error branches of `consume_link` are rolled back: every
error outcome leaves the store unchanged.  `Uuid::now_v7()` and
`SystemTime::now()` are modelled as the explicit `id` and `now` arguments,
and the ~10% `rand_cleanup()` coin as the `doCleanup` argument.
-/

abbrev Store := List (List Nat × ProvisionRecord)

inductive StorageError where
  | notFound   -- "provision link not found or has been revoked" / sqlx RowNotFound
  | expired    -- "provision link has expired"
  | exhausted  -- "provision link has reached maximum uses" / "link already used up"
deriving DecidableEq, Repr

/-- `ProvisionStorage::cleanup_expired`: purge expired and exhausted records. -/
def cleanup_expired (st : Store) (now : Nat) : Store :=
  st.filter (fun p => !(p.2.is_expired now || p.2.is_exhausted))

/-- `ProvisionStorage::create_link`. -/
def create_link (st : Store) (id : List Nat) (now duration_seconds : Nat)
    (max_uses : Option Nat) (doCleanup : Bool) : ProvisionRecord × Store :=
  let record := ProvisionRecord.new id now duration_seconds max_uses
  let st1 := insertStore st id record
  (record, if doCleanup then cleanup_expired st1 now else st1)

/-- `ProvisionStorage::verify_link` (read-only). -/
def verify_link (st : Store) (id : List Nat) (now : Nat) :
    Except StorageError ProvisionLinkInfo :=
  match lookupStore st id with
  | none => .error .notFound
  | some record =>
    if record.is_expired now then .error .expired
    else if record.is_exhausted then .error .exhausted
    else .ok (ProvisionLinkInfo.ofRecord record)

/-- `ProvisionStorage::consume_link`: increments `use_count`, deleting the
record when the increment reaches `max_uses`; returns the post-increment
record for potential rollback. -/
def consume_link (st : Store) (id : List Nat) (now : Nat) :
    Except StorageError ProvisionRecord × Store :=
  match lookupStore st id with
  | none => (.error .notFound, st)
  | some record =>
    if record.is_expired now then (.error .expired, st)
    else if record.is_exhausted then (.error .exhausted, st)
    else
      let record2 := { record with use_count := record.use_count + 1 }
      if record2.is_exhausted then (.ok record2, removeStore st id)
      else (.ok record2, insertStore st id record2)

/-- `ProvisionStorage::unconsume_link`: re-insert the record with the use
count decremented (`saturating_sub(1)`), restoring it even if `consume_link`
deleted it. -/
def unconsume_link (st : Store) (record : ProvisionRecord) : Store :=
  insertStore st record.id { record with use_count := record.use_count - 1 }

/-- `ProvisionStorage::delete_link`. -/
def delete_link (st : Store) (id : List Nat) : Store :=
  removeStore st id

/-! ## SQL provision-link storage (server/src/storage/provision_link.rs)

The relational backend.  `Timestamp` values are unix seconds; `max_uses` is
`Option<i32>` (converted from `Option<u8>` at creation) and `use_count` is
`i32`, modelled with `Int`.  A v7 uuid embeds its creation instant, so
`ProvisionLink::new`'s `id.jiff_timestamp()` is the explicit `now`.
`consume` is find → `verify` → `try_increment` and returns the
*pre-increment* record; errors leave the store unchanged.
-/

structure ProvisionLink where
  id : List Nat
  expires_at : Nat
  max_uses : Option Int
  use_count : Int
  groups : List (List Char)
deriving DecidableEq, Repr

abbrev SqlStore := List (List Nat × ProvisionLink)

def ProvisionLink.new (id : List Nat) (now duration : Nat) (max_uses : Option Nat)
    (groups : List (List Char)) : ProvisionLink :=
  ⟨id, now + duration, max_uses.map Int.ofNat, 0, groups⟩

def ProvisionLink.create (st : SqlStore) (id : List Nat) (now duration : Nat)
    (max_uses : Option Nat) (groups : List (List Char)) : ProvisionLink × SqlStore :=
  let link := ProvisionLink.new id now duration max_uses groups
  (link, insertStore st id link)

/-- `Timestamp::now() >= self.expires_at` — note `≥`, not `>`. -/
def ProvisionLink.is_expired (r : ProvisionLink) (now : Nat) : Bool :=
  decide (now ≥ r.expires_at)

def ProvisionLink.is_exhausted (r : ProvisionLink) : Bool :=
  match r.max_uses with
  | some m => decide (r.use_count ≥ m)
  | none => false

def ProvisionLink.verify (r : ProvisionLink) (now : Nat) : Except StorageError Unit :=
  if r.is_expired now then .error .expired
  else if r.is_exhausted then .error .exhausted
  else .ok ()

/-- The conditional update
`UPDATE .. SET use_count = use_count + 1 WHERE id = ? AND (max_uses IS NULL
OR use_count < max_uses)`; zero affected rows is "link already used up". -/
def try_increment (st : SqlStore) (id : List Nat) : Except StorageError SqlStore :=
  match lookupStore st id with
  | some r =>
    if (match r.max_uses with | some m => decide (r.use_count < m) | none => true) then
      .ok (insertStore st id { r with use_count := r.use_count + 1 })
    else .error .exhausted
  | none => .error .exhausted

/-- `ProvisionLink::consume`, after the token has been decoded to `id`
(`find_token` composes the codec of §uuid_v7 in front). -/
def ProvisionLink.consume (st : SqlStore) (id : List Nat) (now : Nat) :
    Except StorageError ProvisionLink × SqlStore :=
  match lookupStore st id with
  | none => (.error .notFound, st)   -- sqlx `fetch_one`: RowNotFound
  | some r =>
    match r.verify now with
    | .error e => (.error e, st)
    | .ok _ =>
      match try_increment st id with
      | .error e => (.error e, st)
      | .ok st2 => (.ok r, st2)

/-- `UPDATE .. SET use_count = use_count - 1 WHERE id = ? AND use_count > 0`. -/
def ProvisionLink.decrement (st : SqlStore) (id : List Nat) : SqlStore :=
  match lookupStore st id with
  | some r =>
    if r.use_count > 0 then insertStore st id { r with use_count := r.use_count - 1 }
    else st
  | none => st

def ProvisionLink.delete (st : SqlStore) (id : List Nat) : SqlStore :=
  removeStore st id

theorem lookup_cleanup_insert (st : Store) (id : List Nat) (rec : ProvisionRecord)
    (now : Nat) (hkeep : (rec.is_expired now || rec.is_exhausted) = false) :
    lookupStore (cleanup_expired (insertStore st id rec) now) id = some rec := by
  rw [cleanup_expired, insertStore, List.filter_append, lookupStore, List.find?_append]
  have h1 : ((st.filter (fun p => p.1 != id)).filter
      (fun p => !(p.2.is_expired now || p.2.is_exhausted))).find? (fun p => p.1 == id)
        = none := by
    rw [List.find?_eq_none]
    intro p hp
    rw [List.mem_filter] at hp
    have h2 := (List.mem_filter.mp hp.1).2
    simp only [bne_iff_ne, ne_eq] at h2
    simp [h2]
  rw [h1, Option.none_or]
  have h2 : List.filter (fun p => !(p.2.is_expired now || p.2.is_exhausted))
      [(id, rec)] = [(id, rec)] := by
    rw [List.filter_cons]
    simp [hkeep]
  rw [h2, List.find?_cons_of_pos _ (by simp)]
  rfl

/-- C10: `create_link` persists a record with `use_count = 0` and
`expires_at = now + duration`, and an immediate `verify_link` of the
created link succeeds and reports `uses_remaining = max_uses` (validity of
`(duration, max_uses)` means a link that is not born exhausted, i.e.
`max_uses ≠ some 0`). -/
theorem C10_create_then_verify (st : Store) (id : List Nat) (now dur : Nat)
    (max_uses : Option Nat) (doCleanup : Bool)
    (hvalid : max_uses = none ∨ ∃ m, max_uses = some m ∧ 0 < m) :
    (create_link st id now dur max_uses doCleanup).1.use_count = 0
    ∧ (create_link st id now dur max_uses doCleanup).1.expires_at = now + dur
    ∧ verify_link (create_link st id now dur max_uses doCleanup).2 id now
        = .ok ⟨id, now + dur, max_uses, max_uses⟩ := by
  have hexp : (ProvisionRecord.new id now dur max_uses).is_expired now = false := by
    simp only [ProvisionRecord.new, ProvisionRecord.is_expired]
    simp only [decide_eq_false_iff_not]
    omega
  have hexh : (ProvisionRecord.new id now dur max_uses).is_exhausted = false := by
    rw [ProvisionRecord.is_exhausted]
    rcases hvalid with h | ⟨m, hm, hpos⟩
    · simp [ProvisionRecord.new, h]
    · simp only [ProvisionRecord.new, hm]
      simp only [decide_eq_false_iff_not]
      omega
  have hget : lookupStore (create_link st id now dur max_uses doCleanup).2 id
      = some (ProvisionRecord.new id now dur max_uses) := by
    rw [create_link]
    cases doCleanup with
    | false => exact lookup_insert_self st id _
    | true =>
      exact lookup_cleanup_insert st id _ now (by rw [hexp, hexh]; rfl)
  refine ⟨rfl, rfl, ?_⟩
  rw [verify_link, hget]
  simp only [hexp, hexh, Bool.false_eq_true, if_false]
  rw [ProvisionLinkInfo.ofRecord]
  have hrem : (ProvisionRecord.new id now dur max_uses).uses_remaining = max_uses := by
    rw [ProvisionRecord.uses_remaining]
    cases max_uses with
    | none => rfl
    | some m => simp [ProvisionRecord.new]
  rw [hrem]
  rfl

/-- Witness for C10 at `st = []`, `id = [1]`, `now = 5`, `dur = 10`,
`max_uses = some 3`, with the cleanup branch taken. -/
theorem C10_create_then_verify_witness :
    (create_link [] [1] 5 10 (some 3) true).1.use_count = 0
    ∧ (create_link [] [1] 5 10 (some 3) true).1.expires_at = 5 + 10
    ∧ verify_link (create_link [] [1] 5 10 (some 3) true).2 [1] 5
        = .ok ⟨[1], 5 + 10, some 3, some 3⟩ :=
  C10_create_then_verify [] [1] 5 10 (some 3) true (Or.inr ⟨3, rfl, by decide⟩)

/-- C5: on a consumable (present, non-expired, non-exhausted) link state, a
consume followed by rollback of that consume restores the stored record —
hence `uses_remaining` — to its pre-consume value, also when the consume
exhausted (and thus deleted) the link, and a subsequent consume succeeds
again. -/
theorem C5_consume_rollback (st : Store) (id : List Nat) (now : Nat) (r : ProvisionRecord)
    (hget : lookupStore st id = some r) (hid : r.id = id)
    (hexp : r.is_expired now = false) (hexh : r.is_exhausted = false) :
    ∃ rec st2,
      consume_link st id now = (.ok rec, st2)
      ∧ lookupStore (unconsume_link st2 rec) id = some r
      ∧ (lookupStore (unconsume_link st2 rec) id).map ProvisionRecord.uses_remaining
          = some r.uses_remaining
      ∧ (consume_link (unconsume_link st2 rec) id now).1 = .ok rec := by
  have hrestore : ∀ st2 : Store,
      unconsume_link st2 { r with use_count := r.use_count + 1 } = insertStore st2 id r := by
    intro st2
    rw [unconsume_link]
    cases r
    cases hid
    simp
  have hconsume2 : ∀ st' : Store, lookupStore st' id = some r →
      (consume_link st' id now).1 = .ok { r with use_count := r.use_count + 1 } := by
    intro st' hst
    simp only [consume_link, hst]
    rw [if_neg (by simp [hexp]), if_neg (by simp [hexh])]
    by_cases h2 : ({ r with use_count := r.use_count + 1 } : ProvisionRecord).is_exhausted
      = true
    · rw [if_pos h2]
    · rw [if_neg h2]
  by_cases h2 : ({ r with use_count := r.use_count + 1 } : ProvisionRecord).is_exhausted
    = true
  · refine ⟨{ r with use_count := r.use_count + 1 }, removeStore st id, ?_, ?_, ?_, ?_⟩
    · simp only [consume_link, hget]
      rw [if_neg (by simp [hexp]), if_neg (by simp [hexh]), if_pos h2]
    · rw [hrestore]
      exact lookup_insert_self _ id r
    · rw [hrestore, lookup_insert_self _ id r]
      rfl
    · apply hconsume2
      rw [hrestore]
      exact lookup_insert_self _ id r
  · refine ⟨{ r with use_count := r.use_count + 1 },
      insertStore st id { r with use_count := r.use_count + 1 }, ?_, ?_, ?_, ?_⟩
    · simp only [consume_link, hget]
      rw [if_neg (by simp [hexp]), if_neg (by simp [hexh]), if_neg h2]
    · rw [hrestore]
      exact lookup_insert_self _ id r
    · rw [hrestore, lookup_insert_self _ id r]
      rfl
    · apply hconsume2
      rw [hrestore]
      exact lookup_insert_self _ id r

def c5Record : ProvisionRecord := ⟨[3], 100, some 1, 0, 0⟩

/-- Witness for C5 on a one-record store with `max_uses = 1` (so the
consume exhausts and deletes the link, and rollback re-creates it). -/
theorem C5_consume_rollback_witness :
    ∃ rec st2,
      consume_link [([3], c5Record)] [3] 10 = (.ok rec, st2)
      ∧ lookupStore (unconsume_link st2 rec) [3] = some c5Record
      ∧ (lookupStore (unconsume_link st2 rec) [3]).map ProvisionRecord.uses_remaining
          = some c5Record.uses_remaining
      ∧ (consume_link (unconsume_link st2 rec) [3] 10).1 = .ok rec :=
  C5_consume_rollback [([3], c5Record)] [3] 10 c5Record (by decide) (by decide)
    (by decide) (by decide)

def c3Record : ProvisionRecord := ⟨[1], 100, some 1, 0, 0⟩

/-- Counterexample to C3 as stated: in the redb backend
(`ProvisionStorage::consume_link`) the record is deleted when the first
consume reaches `max_uses`, so the second consume of a `max_uses = 1` link
fails with the not-found error class ("provision link not found or has been
revoked"), not an exhaustion-class error. -/
theorem C3_counterexample :
    (consume_link [([1], c3Record)] [1] 10).1 = .ok ⟨[1], 100, some 1, 1, 0⟩
    ∧ consume_link (consume_link [([1], c3Record)] [1] 10).2 [1] 10
        = (.error .notFound, (consume_link [([1], c3Record)] [1] 10).2)
    ∧ StorageError.notFound ≠ StorageError.exhausted :=
  ⟨rfl, rfl, by decide⟩

/-- C3 (amended): for a `max_uses = 1` link, the first consume succeeds; the
second fails — with the exhaustion class in the SQL backend, which keeps the
exhausted row, and with the not-found class in the redb backend, which
deleted it.  In both backends a link whose `use_count` has reached
`max_uses` can never be successfully consumed. -/
theorem C3_exhaustion (st : Store) (sst : SqlStore) (id : List Nat) (now : Nat) :
    (∀ b : ProvisionLink,
      lookupStore sst id = some b → b.max_uses = some 1 → b.use_count = 0 →
      b.is_expired now = false →
      ∃ sst2, ProvisionLink.consume sst id now = (.ok b, sst2)
        ∧ (ProvisionLink.consume sst2 id now).1 = .error .exhausted)
    ∧ (∀ a : ProvisionRecord,
        lookupStore st id = some a → a.max_uses = some 1 → a.use_count = 0 →
        a.is_expired now = false →
        ∃ rec, consume_link st id now = (.ok rec, removeStore st id)
          ∧ (consume_link (removeStore st id) id now).1 = .error .notFound)
    ∧ (∀ a : ProvisionRecord, lookupStore st id = some a → a.is_exhausted = true →
        ∀ rec, (consume_link st id now).1 ≠ .ok rec)
    ∧ (∀ b : ProvisionLink, lookupStore sst id = some b → b.is_exhausted = true →
        ∀ rec, (ProvisionLink.consume sst id now).1 ≠ .ok rec) := by
  refine ⟨?_, ?_, ?_, ?_⟩
  · intro b hget hmax hcount hexp
    have hexh : b.is_exhausted = false := by
      rw [ProvisionLink.is_exhausted, hmax]
      simp only [decide_eq_false_iff_not]
      rw [hcount]
      omega
    have hverify : b.verify now = .ok () := by
      rw [ProvisionLink.verify, if_neg (by simp [hexp]), if_neg (by simp [hexh])]
    have hcond : (match b.max_uses with
        | some m => decide (b.use_count < m)
        | none => true) = true := by
      simp only [hmax, hcount]
      decide
    have hinc : try_increment sst id
        = .ok (insertStore sst id { b with use_count := b.use_count + 1 }) := by
      simp only [try_increment, hget, hcond, if_true]
    refine ⟨insertStore sst id { b with use_count := b.use_count + 1 }, ?_, ?_⟩
    · simp only [ProvisionLink.consume, hget, hverify, hinc]
    · have hget2 : lookupStore (insertStore sst id { b with use_count := b.use_count + 1 }) id
          = some { b with use_count := b.use_count + 1 } := lookup_insert_self _ _ _
      have hexh2 : ({ b with use_count := b.use_count + 1 } : ProvisionLink).is_exhausted
          = true := by
        rw [ProvisionLink.is_exhausted]
        simp only [hmax]
        rw [hcount]
        simp
      have hverify2 : ({ b with use_count := b.use_count + 1 } : ProvisionLink).verify now
          = .error .exhausted := by
        rw [ProvisionLink.verify, if_neg (by simp [ProvisionLink.is_expired] at hexp ⊢; exact hexp),
          if_pos hexh2]
      simp only [ProvisionLink.consume, hget2, hverify2]
  · intro a hget hmax hcount hexp
    have hexh : a.is_exhausted = false := by
      rw [ProvisionRecord.is_exhausted, hmax]
      simp only [decide_eq_false_iff_not]
      rw [hcount]
      omega
    have hexh2 : ({ a with use_count := a.use_count + 1 } : ProvisionRecord).is_exhausted
        = true := by
      rw [ProvisionRecord.is_exhausted]
      simp only [hmax]
      rw [hcount]
      simp
    refine ⟨{ a with use_count := a.use_count + 1 }, ?_, ?_⟩
    · simp only [consume_link, hget]
      rw [if_neg (by simp [hexp]), if_neg (by simp [hexh]), if_pos hexh2]
    · simp only [consume_link, lookup_remove_self]
  · intro a hget hexh rec
    simp only [consume_link, hget]
    by_cases he : a.is_expired now = true
    · rw [if_pos he]
      simp
    · rw [if_neg he, if_pos hexh]
      simp
  · intro b hget hexh rec
    simp only [ProvisionLink.consume, hget]
    by_cases he : b.is_expired now = true
    · rw [ProvisionLink.verify, if_pos he]
      simp
    · rw [ProvisionLink.verify, if_neg he, if_pos hexh]
      simp

def c3SqlRecord : ProvisionLink := ⟨[1], 100, some 1, 0, []⟩

/-- Witness for C3 on concrete one-record stores with `max_uses = 1`. -/
theorem C3_exhaustion_witness :
    (∃ sst2, ProvisionLink.consume [([1], c3SqlRecord)] [1] 10 = (.ok c3SqlRecord, sst2)
      ∧ (ProvisionLink.consume sst2 [1] 10).1 = .error .exhausted)
    ∧ (∃ rec, consume_link [([1], c3Record)] [1] 10
          = (.ok rec, removeStore [([1], c3Record)] [1])
        ∧ (consume_link (removeStore [([1], c3Record)] [1]) [1] 10).1 = .error .notFound) :=
  ⟨(C3_exhaustion [([1], c3Record)] [([1], c3SqlRecord)] [1] 10).1 c3SqlRecord
      (by decide) (by decide) (by decide) (by decide),
   (C3_exhaustion [([1], c3Record)] [([1], c3SqlRecord)] [1] 10).2.1 c3Record
      (by decide) (by decide) (by decide) (by decide)⟩

/-! ## Store invariants (claim C4) -/

def RecordInv (r : ProvisionRecord) : Prop :=
  ∀ m, r.max_uses = some m → r.use_count ≤ m

def StoreInv (st : Store) : Prop := ∀ p ∈ st, RecordInv p.2

def SqlRecordInv (b : ProvisionLink) : Prop :=
  0 ≤ b.use_count ∧ ∀ m, b.max_uses = some m → b.use_count ≤ m

def SqlStoreInv (sst : SqlStore) : Prop := ∀ p ∈ sst, SqlRecordInv p.2

theorem inv_filter {α : Type} (P : α → Prop) (st : List (List Nat × α))
    (f : List Nat × α → Bool) (hst : ∀ p ∈ st, P p.2) :
    ∀ p ∈ st.filter f, P p.2 :=
  fun p hp => hst p (List.mem_filter.mp hp).1

theorem inv_insert {α : Type} (P : α → Prop) (st : List (List Nat × α))
    (id : List Nat) (v : α) (hst : ∀ p ∈ st, P p.2) (hv : P v) :
    ∀ p ∈ insertStore st id v, P p.2 := by
  intro p hp
  rw [insertStore, List.mem_append] at hp
  rcases hp with hp | hp
  · exact hst p (List.mem_filter.mp hp).1
  · simp only [List.mem_singleton] at hp
    rw [hp]
    exact hv

theorem lookup_inv {α : Type} (P : α → Prop) (st : List (List Nat × α))
    (hst : ∀ p ∈ st, P p.2) (id : List Nat) (v : α)
    (h : lookupStore st id = some v) : P v := by
  rw [lookupStore] at h
  cases hf : st.find? (fun p => p.1 == id) with
  | none => rw [hf] at h; cases h
  | some p =>
    rw [hf] at h
    simp only [Option.map_some', Option.some.injEq] at h
    rw [← h]
    exact hst p (List.mem_of_find?_eq_some hf)

/-- C4: every provision-link store operation preserves the record invariant
`use_count ≥ 0 ∧ (max_uses = some m → use_count ≤ m)` (the lower bound is
inherent in the redb backend's `u32`/`Nat` counts and explicit in the SQL
backend's `i32`/`Int` counts); the SQL upper bound is enforced by the
conditional-increment write itself, which rejects with the exhaustion error
when the bound is reached, and both decrements floor at 0 (`saturating_sub`
/ `WHERE use_count > 0`). -/
theorem C4_invariants :
    (∀ (st : Store) (id : List Nat) (now dur : Nat) (max_uses : Option Nat) (doC : Bool),
      StoreInv st → StoreInv (create_link st id now dur max_uses doC).2)
    ∧ (∀ (st : Store) (id : List Nat) (now : Nat),
        StoreInv st → StoreInv (consume_link st id now).2)
    ∧ (∀ (st : Store) (rec : ProvisionRecord),
        StoreInv st → RecordInv rec → StoreInv (unconsume_link st rec))
    ∧ (∀ (st : Store) (now : Nat), StoreInv st → StoreInv (cleanup_expired st now))
    ∧ (∀ (sst : SqlStore) (id : List Nat) (r : ProvisionLink),
        lookupStore sst id = some r → r.is_exhausted = true →
        try_increment sst id = .error .exhausted)
    ∧ (∀ (sst : SqlStore) (id : List Nat) (now dur : Nat) (max_uses : Option Nat)
        (groups : List (List Char)),
        SqlStoreInv sst → SqlStoreInv (ProvisionLink.create sst id now dur max_uses groups).2)
    ∧ (∀ (sst : SqlStore) (id : List Nat) (st2 : SqlStore),
        SqlStoreInv sst → try_increment sst id = .ok st2 → SqlStoreInv st2)
    ∧ (∀ (sst : SqlStore) (id : List Nat) (now : Nat),
        SqlStoreInv sst → SqlStoreInv (ProvisionLink.consume sst id now).2)
    ∧ (∀ (sst : SqlStore) (id : List Nat),
        SqlStoreInv sst → SqlStoreInv (ProvisionLink.decrement sst id)) := by
  refine ⟨?_, ?_, ?_, ?_, ?_, ?_, ?_, ?_, ?_⟩
  · -- redb create
    intro st id now dur max_uses doC hst
    rw [create_link]
    have hnew : RecordInv (ProvisionRecord.new id now dur max_uses) := by
      intro m hm
      simp [ProvisionRecord.new]
    cases doC with
    | false => exact inv_insert _ st id _ hst hnew
    | true => exact inv_filter _ _ _ (inv_insert _ st id _ hst hnew)
  · -- redb consume
    intro st id now hst
    cases hl : lookupStore st id with
    | none =>
      simp only [consume_link, hl]
      exact hst
    | some r =>
      simp only [consume_link, hl]
      by_cases he : r.is_expired now = true
      · rw [if_pos he]
        exact hst
      rw [if_neg he]
      by_cases hx : r.is_exhausted = true
      · rw [if_pos hx]
        exact hst
      rw [if_neg hx]
      by_cases h2 : ({ r with use_count := r.use_count + 1 } : ProvisionRecord).is_exhausted
        = true
      · rw [if_pos h2]
        exact inv_filter _ _ _ hst
      · rw [if_neg h2]
        apply inv_insert _ st id _ hst
        intro m hm
        dsimp only at hm ⊢
        rw [ProvisionRecord.is_exhausted] at h2
        dsimp only at h2
        rw [hm] at h2
        simp only [decide_eq_true_eq] at h2
        omega
  · -- redb unconsume
    intro st rec hst hrec
    rw [unconsume_link]
    apply inv_insert _ st _ _ hst
    intro m hm
    have := hrec m hm
    dsimp only at hm ⊢
    omega
  · -- redb cleanup
    intro st now hst
    exact inv_filter _ _ _ hst
  · -- SQL conditional increment rejects at the bound
    intro sst id r hl hx
    rw [ProvisionLink.is_exhausted] at hx
    simp only [try_increment, hl]
    cases hm : r.max_uses with
    | none => rw [hm] at hx; cases hx
    | some m =>
      rw [hm] at hx
      simp only [decide_eq_true_eq] at hx
      rw [if_neg (by simp [hm]; omega)]
  · -- SQL create
    intro sst id now dur max_uses groups hst
    rw [ProvisionLink.create]
    apply inv_insert _ sst id _ hst
    refine ⟨le_refl 0, ?_⟩
    intro m
    cases max_uses with
    | none =>
      intro hm
      exact absurd hm (by simp [ProvisionLink.new])
    | some a =>
      intro hm
      have he : ProvisionLink.new id now dur (some a) groups
          = ⟨id, now + dur, some ((a : Int)), 0, groups⟩ := rfl
      rw [he] at hm ⊢
      simp only [Option.some.injEq] at hm
      show (0 : Int) ≤ m
      omega
  · -- SQL try_increment preserves the invariant
    intro sst id st2 hst hok
    cases hl : lookupStore sst id with
    | none => simp only [try_increment, hl] at hok; cases hok
    | some r =>
      simp only [try_increment, hl] at hok
      split at hok
      next hc =>
        cases hok
        apply inv_insert _ sst id _ hst
        have hr := lookup_inv SqlRecordInv sst hst id r hl
        have hr1 := hr.1
        refine ⟨by dsimp only; omega, ?_⟩
        intro m hm
        dsimp only at hm ⊢
        cases hmu : r.max_uses with
        | none => rw [hmu] at hm; cases hm
        | some m2 =>
          rw [hmu] at hm hc
          simp only [decide_eq_true_eq] at hc
          simp only [Option.some.injEq] at hm
          omega
      next => cases hok
  · -- SQL consume preserves the invariant
    intro sst id now hst
    cases hl : lookupStore sst id with
    | none =>
      simp only [ProvisionLink.consume, hl]
      exact hst
    | some r =>
      simp only [ProvisionLink.consume, hl]
      cases hv : r.verify now with
      | error e => exact hst
      | ok u =>
        cases hi : try_increment sst id with
        | error e => exact hst
        | ok st2 =>
          cases hl2 : lookupStore sst id with
          | none =>
            simp only [try_increment, hl2] at hi
            cases hi
          | some r2 =>
            simp only [try_increment, hl2] at hi
            split at hi
            next hc =>
              cases hi
              apply inv_insert _ sst id _ hst
              have hr := lookup_inv SqlRecordInv sst hst id r2 hl2
              have hr1 := hr.1
              refine ⟨by dsimp only; omega, ?_⟩
              intro m hm
              dsimp only at hm ⊢
              cases hmu : r2.max_uses with
              | none => rw [hmu] at hm; cases hm
              | some m2 =>
                rw [hmu] at hm hc
                simp only [decide_eq_true_eq] at hc
                simp only [Option.some.injEq] at hm
                omega
            next => cases hi
  · -- SQL decrement floors at zero and preserves the invariant
    intro sst id hst
    cases hl : lookupStore sst id with
    | none =>
      simp only [ProvisionLink.decrement, hl]
      exact hst
    | some r =>
      simp only [ProvisionLink.decrement, hl]
      by_cases hpos : r.use_count > 0
      · rw [if_pos hpos]
        apply inv_insert _ sst id _ hst
        have hr := lookup_inv SqlRecordInv sst hst id r hl
        have hr1 := hr.1
        refine ⟨by dsimp only; omega, ?_⟩
        intro m hm
        dsimp only at hm ⊢
        have := hr.2 m hm
        omega
      · rw [if_neg hpos]
        exact hst

def c4Record : ProvisionRecord := ⟨[4], 100, some 2, 1, 0⟩

def c4SqlRecord : ProvisionLink := ⟨[4], 100, some 2, 2, []⟩

/-- Witness for C4 on concrete one-record stores. -/
theorem C4_invariants_witness :
    StoreInv (create_link [([4], c4Record)] [5] 7 10 (some 3) false).2
    ∧ StoreInv (consume_link [([4], c4Record)] [4] 10).2
    ∧ StoreInv (unconsume_link [([4], c4Record)] c4Record)
    ∧ try_increment [([4], c4SqlRecord)] [4] = .error .exhausted
    ∧ SqlStoreInv (ProvisionLink.decrement [([4], c4SqlRecord)] [4]) := by
  have hst : StoreInv [([4], c4Record)] := by
    intro p hp
    simp only [List.mem_singleton] at hp
    rw [hp]
    intro m hm
    simp only [c4Record, Option.some.injEq] at hm ⊢
    omega
  have hsst : SqlStoreInv [([4], c4SqlRecord)] := by
    intro p hp
    simp only [List.mem_singleton] at hp
    rw [hp]
    refine ⟨by decide, ?_⟩
    intro m hm
    simp only [c4SqlRecord, Option.some.injEq] at hm ⊢
    omega
  refine ⟨C4_invariants.1 _ [5] 7 10 (some 3) false hst,
    C4_invariants.2.1 _ [4] 10 hst,
    C4_invariants.2.2.1 _ c4Record hst ?_,
    C4_invariants.2.2.2.2.1 _ [4] c4SqlRecord (by decide) (by decide),
    C4_invariants.2.2.2.2.2.2.2.2 _ [4] hsst⟩
  intro m hm
  simp only [c4Record, Option.some.injEq] at hm ⊢
  omega

/-! ## Backend comparison (claim C6) -/

/-- The logical record state shared by the two backends. -/
def recMatches (a : ProvisionRecord) (b : ProvisionLink) : Prop :=
  b.id = a.id ∧ b.expires_at = a.expires_at
    ∧ b.max_uses = a.max_uses.map Int.ofNat
    ∧ b.use_count = (a.use_count : Int)

def c6Record : ProvisionRecord := ⟨[2], 100, some 1, 0, 0⟩

def c6SqlRecord : ProvisionLink := ⟨[2], 100, some 1, 0, []⟩

/-- Counterexample to C6 as stated: on matching pre-states the two backends
produce observably different outcomes.  (i) A consume that reaches
`max_uses` deletes the record in the redb backend but keeps it (with
`use_count = max_uses`) in the SQL backend; (ii) at the exact expiry
instant the redb backend still accepts the link (`now > expires_at`) while
the SQL backend rejects it (`now >= expires_at`); (iii) consuming after
exhaustion is classified not-found by the redb backend and exhausted by the
SQL one. -/
theorem C6_counterexample :
    (lookupStore (consume_link [([2], c6Record)] [2] 10).2 [2] = none
      ∧ lookupStore (ProvisionLink.consume [([2], c6SqlRecord)] [2] 10).2 [2]
          = some ⟨[2], 100, some 1, 1, []⟩)
    ∧ (verify_link [([2], c6Record)] [2] 100 = .ok ⟨[2], 100, some 1, some 1⟩
      ∧ ProvisionLink.verify c6SqlRecord 100 = .error .expired)
    ∧ ((consume_link (consume_link [([2], c6Record)] [2] 10).2 [2] 10).1
          = .error .notFound
      ∧ (ProvisionLink.consume (ProvisionLink.consume [([2], c6SqlRecord)] [2] 10).2
          [2] 10).1 = .error .exhausted) :=
  ⟨⟨rfl, rfl⟩, ⟨rfl, rfl⟩, ⟨rfl, rfl⟩⟩

/-- C6 (amended): the backends implement the same logical store only away
from the divergences exhibited in the counterexample: matching records
agree on exhaustion, agree on expiry at every instant other than the exact
expiry timestamp, `create` yields matching records, and a consume that is
strictly before expiry and does not reach `max_uses` succeeds in both with
matching post-state records; they are not observably equivalent in general
(record retention after an exhausting consume, validity at the expiry
instant, the error class of consuming an exhausted link, and the returned
record — post-increment in redb, pre-increment in SQL — all differ). -/
theorem C6_backend_equiv :
    (∀ (a : ProvisionRecord) (b : ProvisionLink), recMatches a b →
      b.is_exhausted = a.is_exhausted)
    ∧ (∀ (a : ProvisionRecord) (b : ProvisionLink) (now : Nat), recMatches a b →
        now ≠ a.expires_at → b.is_expired now = a.is_expired now)
    ∧ (∀ (st : Store) (sst : SqlStore) (id : List Nat) (now dur : Nat)
        (max_uses : Option Nat) (doC : Bool) (groups : List (List Char)),
        recMatches (create_link st id now dur max_uses doC).1
          (ProvisionLink.create sst id now dur max_uses groups).1)
    ∧ (∀ (st : Store) (sst : SqlStore) (id : List Nat) (now : Nat)
        (a : ProvisionRecord) (b : ProvisionLink),
        lookupStore st id = some a → lookupStore sst id = some b → recMatches a b →
        now < a.expires_at →
        (match a.max_uses with | none => True | some m => a.use_count + 1 < m) →
        consume_link st id now
            = (.ok { a with use_count := a.use_count + 1 },
               insertStore st id { a with use_count := a.use_count + 1 })
          ∧ ProvisionLink.consume sst id now
              = (.ok b, insertStore sst id { b with use_count := b.use_count + 1 })
          ∧ recMatches { a with use_count := a.use_count + 1 }
              { b with use_count := b.use_count + 1 }) := by
  refine ⟨?_, ?_, ?_, ?_⟩
  · intro a b hm
    obtain ⟨_, _, hmax, hcount⟩ := hm
    rw [ProvisionLink.is_exhausted, ProvisionRecord.is_exhausted, hmax, hcount]
    cases a.max_uses with
    | none => rfl
    | some m =>
      simp only [Option.map_some', Int.ofNat_eq_natCast]
      rw [decide_eq_decide]
      constructor
      · intro h
        omega
      · intro h
        omega
  · intro a b now hm hne
    obtain ⟨_, hexp, _, _⟩ := hm
    rw [ProvisionLink.is_expired, ProvisionRecord.is_expired, hexp]
    rw [decide_eq_decide]
    omega
  · intro st sst id now dur max_uses doC groups
    exact ⟨rfl, rfl, rfl, rfl⟩
  · intro st sst id now a b hla hlb hm hlt hroom
    obtain ⟨hbid, hbexp, hbmax, hbcount⟩ := hm
    have haexp : a.is_expired now = false := by
      rw [ProvisionRecord.is_expired]
      simp only [decide_eq_false_iff_not]
      omega
    have haexh : a.is_exhausted = false := by
      rw [ProvisionRecord.is_exhausted]
      cases hmu : a.max_uses with
      | none => rfl
      | some m =>
        rw [hmu] at hroom
        dsimp only at hroom
        simp only [decide_eq_false_iff_not]
        omega
    have ha2exh : ({ a with use_count := a.use_count + 1 } : ProvisionRecord).is_exhausted
        = false := by
      rw [ProvisionRecord.is_exhausted]
      dsimp only
      cases hmu : a.max_uses with
      | none => rfl
      | some m =>
        rw [hmu] at hroom
        dsimp only at hroom
        simp only [decide_eq_false_iff_not]
        omega
    have hbexpired : b.is_expired now = false := by
      rw [ProvisionLink.is_expired, hbexp]
      simp only [decide_eq_false_iff_not]
      omega
    have hbexh : b.is_exhausted = false := by
      rw [ProvisionLink.is_exhausted, hbmax, hbcount]
      cases hmu : a.max_uses with
      | none => rfl
      | some m =>
        rw [hmu] at hroom
        dsimp only at hroom
        simp only [Option.map_some', Int.ofNat_eq_natCast, decide_eq_false_iff_not]
        omega
    have hbverify : b.verify now = .ok () := by
      rw [ProvisionLink.verify, if_neg (by simp [hbexpired]), if_neg (by simp [hbexh])]
    have hbcond : (match b.max_uses with
        | some m => decide (b.use_count < m)
        | none => true) = true := by
      rw [hbmax, hbcount]
      cases hmu : a.max_uses with
      | none => rfl
      | some m =>
        rw [hmu] at hroom
        dsimp only at hroom
        simp only [Option.map_some', Int.ofNat_eq_natCast, decide_eq_true_eq]
        omega
    have hinc : try_increment sst id
        = .ok (insertStore sst id { b with use_count := b.use_count + 1 }) := by
      simp only [try_increment, hlb, hbcond, if_true]
    refine ⟨?_, ?_, ?_⟩
    · simp only [consume_link, hla]
      rw [if_neg (by simp [haexp]), if_neg (by simp [haexh]), if_neg (by simp [ha2exh])]
    · simp only [ProvisionLink.consume, hlb, hbverify, hinc]
    · refine ⟨hbid, hbexp, hbmax, ?_⟩
      dsimp only
      rw [hbcount]
      omega

def c6OkRecord : ProvisionRecord := ⟨[2], 100, some 5, 1, 0⟩

def c6OkSqlRecord : ProvisionLink := ⟨[2], 100, some 5, 1, []⟩

/-- Witness for C6 (amended) on concrete matching one-record stores. -/
theorem C6_backend_equiv_witness :
    ProvisionLink.is_exhausted c6OkSqlRecord = ProvisionRecord.is_exhausted c6OkRecord
    ∧ ProvisionLink.is_expired c6OkSqlRecord 42 = ProvisionRecord.is_expired c6OkRecord 42
    ∧ (consume_link [([2], c6OkRecord)] [2] 42
          = (.ok { c6OkRecord with use_count := c6OkRecord.use_count + 1 },
             insertStore [([2], c6OkRecord)] [2]
               { c6OkRecord with use_count := c6OkRecord.use_count + 1 })
        ∧ ProvisionLink.consume [([2], c6OkSqlRecord)] [2] 42
            = (.ok c6OkSqlRecord,
               insertStore [([2], c6OkSqlRecord)] [2]
                 { c6OkSqlRecord with use_count := c6OkSqlRecord.use_count + 1 })
        ∧ recMatches { c6OkRecord with use_count := c6OkRecord.use_count + 1 }
            { c6OkSqlRecord with use_count := c6OkSqlRecord.use_count + 1 }) := by
  have hmatch : recMatches c6OkRecord c6OkSqlRecord := ⟨rfl, rfl, rfl, rfl⟩
  exact ⟨C6_backend_equiv.1 c6OkRecord c6OkSqlRecord hmatch,
    C6_backend_equiv.2.1 c6OkRecord c6OkSqlRecord 42 hmatch (by decide),
    C6_backend_equiv.2.2.2 [([2], c6OkRecord)] [([2], c6OkSqlRecord)] [2] 42
      c6OkRecord c6OkSqlRecord rfl rfl hmatch (by decide) (by simp [c6OkRecord])⟩

/-! ## Provisioning orchestration (api/src/lib.rs `complete_provision`)

The external Kanidm calls (`create_person`, `generate_credential_reset_link`)
are modelled by their outcomes, passed as parameters; the trace records
which calls were attempted, in order.  The consume step decodes the signed
token first (the codec below) — here the operation is modelled from the
decoded link id on.  The rollback result is discarded (`let _ = ...`), as
in the source.
-/

structure ResetLink where
  url : List Char
  expires_at : Nat
deriving DecidableEq, Repr

inductive ApiEvent where
  | consumeAttempt
  | createPersonAttempt
  | resetLinkAttempt
deriving DecidableEq, Repr

inductive CompleteError where
  | storage (e : StorageError)
  | upstream (msg : List Char)
deriving DecidableEq, Repr

def complete_provision (st : Store) (id : List Nat) (now : Nat)
    (createResult : Except (List Char) Unit)
    (resetResult : Except (List Char) ResetLink) :
    Except CompleteError ResetLink × Store × List ApiEvent :=
  match consume_link st id now with
  | (.error e, st1) => (.error (.storage e), st1, [.consumeAttempt])
  | (.ok record, st1) =>
    match createResult with
    | .error msg =>
      (.error (.upstream msg), unconsume_link st1 record,
       [.consumeAttempt, .createPersonAttempt])
    | .ok _ =>
      match resetResult with
      | .error msg =>
        (.error (.upstream msg), st1,
         [.consumeAttempt, .createPersonAttempt, .resetLinkAttempt])
      | .ok link =>
        (.ok link, st1,
         [.consumeAttempt, .createPersonAttempt, .resetLinkAttempt])

theorem consume_error_state (st : Store) (id : List Nat) (now : Nat) (e : StorageError)
    (h : (consume_link st id now).1 = .error e) : (consume_link st id now).2 = st := by
  cases hl : lookupStore st id with
  | none => simp only [consume_link, hl]
  | some r =>
    simp only [consume_link, hl] at h ⊢
    by_cases he : r.is_expired now = true
    · rw [if_pos he]
    rw [if_neg he] at h ⊢
    by_cases hx : r.is_exhausted = true
    · rw [if_pos hx]
    rw [if_neg hx] at h ⊢
    by_cases h2 : ({ r with use_count := r.use_count + 1 } : ProvisionRecord).is_exhausted
      = true
    · rw [if_pos h2] at h
      cases h
    · rw [if_neg h2] at h
      cases h

/-- C2: `complete_provision` consumes the link before attempting remote
account creation (the trace shows a create attempt only after a successful
consume, which always comes first), and whenever account creation fails the
consumed use is rolled back — the stored use count returns to its
pre-consume value — and the creation error is propagated to the caller. -/
theorem C2_consume_before_create (st : Store) (id : List Nat) (now : Nat) :
    (∀ (cr : Except (List Char) Unit) (rr : Except (List Char) ResetLink)
        (e : StorageError),
      (consume_link st id now).1 = .error e →
      complete_provision st id now cr rr = (.error (.storage e), st, [.consumeAttempt]))
    ∧ (∀ (rr : Except (List Char) ResetLink) (msg : List Char)
        (rec : ProvisionRecord) (st1 : Store),
        consume_link st id now = (.ok rec, st1) →
        complete_provision st id now (.error msg) rr
          = (.error (.upstream msg), unconsume_link st1 rec,
             [.consumeAttempt, .createPersonAttempt]))
    ∧ (∀ (rr : Except (List Char) ResetLink) (msg : List Char) (r : ProvisionRecord),
        lookupStore st id = some r → r.id = id →
        (consume_link st id now).1.isOk = true →
        (lookupStore (complete_provision st id now (.error msg) rr).2.1 id).map
            (fun p => p.use_count) = some r.use_count)
    ∧ (∀ (cr : Except (List Char) Unit) (rr : Except (List Char) ResetLink),
        .createPersonAttempt ∈ (complete_provision st id now cr rr).2.2 →
        (∃ rec st1, consume_link st id now = (.ok rec, st1))
          ∧ (complete_provision st id now cr rr).2.2.head? = some .consumeAttempt) := by
  refine ⟨?_, ?_, ?_, ?_⟩
  · intro cr rr e h
    have hst := consume_error_state st id now e h
    rw [complete_provision]
    cases hc : consume_link st id now with
    | mk res st1 =>
      rw [hc] at h hst
      dsimp only at h hst
      rw [h, hst]
  · intro rr msg rec st1 hc
    rw [complete_provision, hc]
  · intro rr msg r hl hid hok
    have hexp : r.is_expired now = false := by
      by_contra hne
      rw [Bool.not_eq_false] at hne
      simp only [consume_link, hl, if_pos hne] at hok
      cases hok
    have hexh : r.is_exhausted = false := by
      by_contra hne
      rw [Bool.not_eq_false] at hne
      simp only [consume_link, hl] at hok
      rw [if_neg (by simp [hexp]), if_pos hne] at hok
      cases hok
    have hrestore : ∀ st2 : Store,
        unconsume_link st2 { r with use_count := r.use_count + 1 }
          = insertStore st2 id r := by
      intro st2
      rw [unconsume_link]
      cases r
      cases hid
      simp
    rw [complete_provision]
    by_cases h2 : ({ r with use_count := r.use_count + 1 } : ProvisionRecord).is_exhausted
      = true
    · have hc : consume_link st id now
          = (.ok { r with use_count := r.use_count + 1 }, removeStore st id) := by
        simp only [consume_link, hl]
        rw [if_neg (by simp [hexp]), if_neg (by simp [hexh]), if_pos h2]
      rw [hc]
      dsimp only
      rw [hrestore, lookup_insert_self]
      rfl
    · have hc : consume_link st id now
          = (.ok { r with use_count := r.use_count + 1 },
             insertStore st id { r with use_count := r.use_count + 1 }) := by
        simp only [consume_link, hl]
        rw [if_neg (by simp [hexp]), if_neg (by simp [hexh]), if_neg h2]
      rw [hc]
      dsimp only
      rw [hrestore, lookup_insert_self]
      rfl
  · intro cr rr hmem
    obtain ⟨⟨res, st1⟩, hc⟩ : ∃ p, consume_link st id now = p := ⟨_, rfl⟩
    cases res with
    | error e =>
      rw [complete_provision, hc] at hmem
      simp at hmem
    | ok rec =>
      refine ⟨⟨rec, st1, hc⟩, ?_⟩
      rw [complete_provision, hc]
      cases cr with
      | error msg => rfl
      | ok u =>
        cases rr with
        | error msg => rfl
        | ok link => rfl

def c2Record : ProvisionRecord := ⟨[6], 100, some 2, 0, 0⟩

/-- Witness for C2 on a concrete one-record store with a failing
`create_person` call. -/
theorem C2_consume_before_create_witness :
    complete_provision [([6], c2Record)] [6] 10 (.error "boom".toList) (.error [])
        = (.error (.upstream "boom".toList),
           unconsume_link (insertStore [([6], c2Record)] [6]
             { c2Record with use_count := c2Record.use_count + 1 })
             { c2Record with use_count := c2Record.use_count + 1 },
           [.consumeAttempt, .createPersonAttempt])
    ∧ (lookupStore (complete_provision [([6], c2Record)] [6] 10 (.error "boom".toList)
          (.error [])).2.1 [6]).map (fun p => p.use_count) = some c2Record.use_count :=
  ⟨(C2_consume_before_create [([6], c2Record)] [6] 10).2.1 (.error []) "boom".toList
      { c2Record with use_count := c2Record.use_count + 1 }
      (insertStore [([6], c2Record)] [6]
        { c2Record with use_count := c2Record.use_count + 1 }) (by decide),
   (C2_consume_before_create [([6], c2Record)] [6] 10).2.2.1 (.error []) "boom".toList
      c2Record (by decide) (by decide) (by decide)⟩

/-! ## Signed token codec

Variant A (server/src/lib.rs `sign_uuid` / `extract_uuid`): the id is the
base64url encoding of the 16 uuid bytes.  Variant B (server/src/uuid_v7.rs
`as_token` / `from_token`): the id is the 32-hex-digit `simple` uuid form.
Both sign with HMAC-SHA256 over the ASCII bytes of the id part and append
`.` and the base64url signature.  HMAC is an external primitive, modelled
as an arbitrary byte-valued function `mac key message`.
-/

inductive TokenError where
  | invalidFormat     -- "invalid token format"
  | invalidEncoding   -- "invalid signature encoding" / "invalid token encoding"
  | invalidSignature  -- "invalid token signature" / `verify_slice` failure
  | invalidLength     -- "invalid token length"
  | invalidUuid       -- `Uuid::parse_str` failure
deriving DecidableEq, Repr

def sign_uuid (mac : List Nat → List Nat → List Nat) (secret : List Char)
    (id : List Nat) : List Char :=
  let uuid_b64 := b64Encode id
  let signature := b64Encode (mac (utf8Encode secret) (utf8Encode uuid_b64))
  uuid_b64 ++ (dotChar :: signature)

def extract_uuid (mac : List Nat → List Nat → List Nat) (secret : List Char)
    (token : List Char) : Except TokenError (List Nat) :=
  let parts := splitOnChar dotChar token
  if parts.length ≠ 2 then .error .invalidFormat
  else
    let uuid_b64 := parts.headD []
    let signature_b64 := parts.tail.headD []
    match b64Decode signature_b64 with
    | none => .error .invalidEncoding
    | some signature =>
      if mac (utf8Encode secret) (utf8Encode uuid_b64) ≠ signature then
        .error .invalidSignature
      else
        match b64Decode uuid_b64 with
        | none => .error .invalidEncoding
        | some uuid_bytes =>
          if uuid_bytes.length = 16 then .ok uuid_bytes else .error .invalidLength

def hexEncode : List Nat → List Char
  | [] => []
  | b :: t => hexDigitChar (b / 16) :: hexDigitChar (b % 16) :: hexEncode t

def hexDecode : List Char → Option (List Nat)
  | [] => some []
  | [_] => none
  | c1 :: c2 :: t => do
      let h1 ← hexVal c1
      let h2 ← hexVal c2
      let r ← hexDecode t
      some ((h1 * 16 + h2) :: r)

/-- `Uuid::parse_str` on the `simple` (32 hex digit) form emitted by
`as_token`; the library also accepts hyphenated forms, which `as_token`
never produces. -/
def parse_uuid (s : List Char) : Except TokenError (List Nat) :=
  if s.length = 32 then
    match hexDecode s with
    | some bytes => .ok bytes
    | none => .error .invalidUuid
  else .error .invalidUuid

def uuid_as_token (mac : List Nat → List Nat → List Nat) (secret : List Char)
    (id : List Nat) : List Char :=
  let id_str := hexEncode id
  id_str ++ (dotChar :: b64Encode (mac (utf8Encode secret) (utf8Encode id_str)))

def uuid_from_token (mac : List Nat → List Nat → List Nat) (secret : List Char)
    (token : List Char) : Except TokenError (List Nat) :=
  let parts := splitOnChar dotChar token
  if parts.length ≠ 2 then .error .invalidFormat
  else
    let uuid_simple := parts.headD []
    let signature_b64 := parts.tail.headD []
    match b64Decode signature_b64 with
    | none => .error .invalidEncoding
    | some signature =>
      if mac (utf8Encode secret) (utf8Encode uuid_simple) ≠ signature then
        .error .invalidSignature
      else parse_uuid uuid_simple

theorem splitOnChar_append (sep : Char) (a b : List Char) (ha : sep ∉ a) :
    splitOnChar sep (a ++ (sep :: b)) = a :: splitOnChar sep b := by
  induction a with
  | nil =>
    rw [List.nil_append, splitOnChar, if_pos rfl]
  | cons c t ih =>
    have hc : ¬(c = sep) := by
      intro hc
      exact ha (by simp [hc])
    have ht : sep ∉ t := fun hm => ha (by simp [hm])
    rw [List.cons_append, splitOnChar]
    simp only [if_neg hc, ih ht]
    rfl

theorem b64Alphabet_no_dot :
    b64Alphabet.all (fun ch => ch != dotChar) = true := by decide

theorem b64Encode_no_dot (l : List Nat) (hl : ∀ b ∈ l, b < 256) :
    dotChar ∉ b64Encode l := by
  intro hmem
  have hall := b64Alphabet_no_dot
  rw [List.all_eq_true] at hall
  have h2 := hall dotChar (b64Encode_mem_alphabet l hl dotChar hmem)
  simp at h2

theorem hexDigitChar_no_dot_aux :
    (List.range 16).all (fun n => hexDigitChar n != dotChar) = true := by decide

theorem hexEncode_no_dot (l : List Nat) (hl : ∀ b ∈ l, b < 256) :
    dotChar ∉ hexEncode l := by
  induction l with
  | nil => simp [hexEncode]
  | cons b t ih =>
    have hb : b < 256 := hl b (by simp)
    have ht : ∀ x ∈ t, x < 256 := fun x hx => hl x (by simp [hx])
    intro hmem
    rw [hexEncode] at hmem
    have hall := hexDigitChar_no_dot_aux
    rw [List.all_eq_true] at hall
    simp only [List.mem_cons] at hmem
    rcases hmem with h | h | h
    · have := hall (b / 16) (List.mem_range.mpr (by omega))
      rw [h] at this
      simp at this
    · have := hall (b % 16) (List.mem_range.mpr (by omega))
      rw [h] at this
      simp at this
    · exact ih ht h

theorem hexDecode_hexEncode (l : List Nat) (hl : ∀ b ∈ l, b < 256) :
    hexDecode (hexEncode l) = some l := by
  induction l with
  | nil => rfl
  | cons b t ih =>
    have hb : b < 256 := hl b (by simp)
    have ht : ∀ x ∈ t, x < 256 := fun x hx => hl x (by simp [hx])
    rw [hexEncode]
    cases hhe : hexEncode t with
    | nil =>
      rw [hexDecode, hexVal_hexDigitChar (by omega), hexVal_hexDigitChar (by omega)]
      rw [← hhe, ih ht]
      simp only [Option.bind_eq_bind, Option.some_bind]
      have e : b / 16 * 16 + b % 16 = b := by omega
      rw [e]
    | cons x xs =>
      rw [hexDecode, hexVal_hexDigitChar (by omega), hexVal_hexDigitChar (by omega)]
      rw [← hhe, ih ht]
      simp only [Option.bind_eq_bind, Option.some_bind]
      have e : b / 16 * 16 + b % 16 = b := by omega
      rw [e]

theorem hexEncode_length (l : List Nat) : (hexEncode l).length = 2 * l.length := by
  induction l with
  | nil => rfl
  | cons b t ih =>
    rw [hexEncode]
    simp only [List.length_cons, ih]
    omega

/-- C7: for every 16-byte identifier, signing and then verifying the token
round-trips in both codec variants (for any deterministic byte-valued HMAC
and any secret), and both verifiers reject as malformed (`invalid token
format`) any input that does not split on `.` into exactly two parts. -/
theorem C7_codec (mac : List Nat → List Nat → List Nat)
    (hmac : ∀ k m : List Nat, ∀ b ∈ mac k m, b < 256) (secret : List Char) :
    (∀ id : List Nat, id.length = 16 → (∀ b ∈ id, b < 256) →
      extract_uuid mac secret (sign_uuid mac secret id) = .ok id)
    ∧ (∀ id : List Nat, id.length = 16 → (∀ b ∈ id, b < 256) →
        uuid_from_token mac secret (uuid_as_token mac secret id) = .ok id)
    ∧ (∀ token : List Char, (splitOnChar dotChar token).length ≠ 2 →
        extract_uuid mac secret token = .error .invalidFormat
        ∧ uuid_from_token mac secret token = .error .invalidFormat) := by
  refine ⟨?_, ?_, ?_⟩
  · intro id hlen hbytes
    have hnd_u : dotChar ∉ b64Encode id := b64Encode_no_dot id hbytes
    have hnd_s : dotChar ∉ b64Encode (mac (utf8Encode secret) (utf8Encode (b64Encode id))) :=
      b64Encode_no_dot _ (hmac _ _)
    have hs1 : b64Decode (b64Encode (mac (utf8Encode secret) (utf8Encode (b64Encode id))))
        = some (mac (utf8Encode secret) (utf8Encode (b64Encode id))) :=
      b64Decode_b64Encode _ (hmac _ _)
    have hs2 : b64Decode (b64Encode id) = some id := b64Decode_b64Encode _ hbytes
    simp only [sign_uuid, extract_uuid]
    rw [splitOnChar_append _ _ _ hnd_u, splitOnChar_of_not_mem _ _ hnd_s]
    rw [if_neg (by simp)]
    simp only [List.tail_cons, List.headD_cons]
    simp only [hs1]
    rw [if_neg (by simp)]
    simp only [hs2]
    rw [if_pos hlen]
  · intro id hlen hbytes
    have hnd_u : dotChar ∉ hexEncode id := hexEncode_no_dot id hbytes
    have hnd_s : dotChar ∉ b64Encode (mac (utf8Encode secret) (utf8Encode (hexEncode id))) :=
      b64Encode_no_dot _ (hmac _ _)
    have hs1 : b64Decode (b64Encode (mac (utf8Encode secret) (utf8Encode (hexEncode id))))
        = some (mac (utf8Encode secret) (utf8Encode (hexEncode id))) :=
      b64Decode_b64Encode _ (hmac _ _)
    have hd : hexDecode (hexEncode id) = some id := hexDecode_hexEncode _ hbytes
    simp only [uuid_as_token, uuid_from_token]
    rw [splitOnChar_append _ _ _ hnd_u, splitOnChar_of_not_mem _ _ hnd_s]
    rw [if_neg (by simp)]
    simp only [List.tail_cons, List.headD_cons]
    simp only [hs1]
    rw [if_neg (by simp)]
    rw [parse_uuid, if_pos (by rw [hexEncode_length, hlen])]
    simp only [hd]
  · intro token hsplit
    constructor
    · rw [extract_uuid, if_pos hsplit]
    · rw [uuid_from_token, if_pos hsplit]

def demoMac : List Nat → List Nat → List Nat := fun _ _ => [1, 2, 3]

def demoUuid : List Nat := [0, 1, 2, 3, 4, 5, 6, 7, 8, 9, 10, 11, 12, 13, 14, 15]

/-- Witness for C7 with a concrete byte-valued mac, secret and identifier. -/
theorem C7_codec_witness :
    extract_uuid demoMac "s".toList (sign_uuid demoMac "s".toList demoUuid) = .ok demoUuid
    ∧ uuid_from_token demoMac "s".toList (uuid_as_token demoMac "s".toList demoUuid)
        = .ok demoUuid
    ∧ extract_uuid demoMac "s".toList "nodots".toList = .error .invalidFormat
    ∧ uuid_from_token demoMac "s".toList "nodots".toList = .error .invalidFormat := by
  have hmac : ∀ k m : List Nat, ∀ b ∈ demoMac k m, b < 256 := by
    intro k m b hb
    simp only [demoMac, List.mem_cons, List.not_mem_nil, or_false] at hb
    rcases hb with rfl | rfl | rfl <;> omega
  have hsplit : (splitOnChar dotChar "nodots".toList).length ≠ 2 := by decide
  exact ⟨(C7_codec demoMac hmac "s".toList).1 demoUuid (by decide) (by decide),
    (C7_codec demoMac hmac "s".toList).2.1 demoUuid (by decide) (by decide),
    ((C7_codec demoMac hmac "s".toList).2.2 "nodots".toList hsplit).1,
    ((C7_codec demoMac hmac "s".toList).2.2 "nodots".toList hsplit).2⟩

/-! ### C8: the session cookie issued at the OAuth callback

`src/server/src/auth_routes.rs` (callback_inner) builds
`Cookie::build((SESSION_COOKIE_NAME, token)).path("/").http_only(true).secure(true)`
where `token = session.as_token()` is the signed session reference
(`{canonical_id}.{signature}`, see `uuid_as_token`); no `same_site` call is
made, so the cookie carries no SameSite attribute.
`src/web/src/auth_routes.rs` (callback) builds
`Cookie::build((SESSION_COOKIE_NAME, session_value)).path("/").http_only(true)
.same_site(SameSite::Lax).secure(false)` where `session_value =
encode_session(&user_session)` is the raw claims encoding.
The `cookie` crate's builder starts from a cookie with no path, not
http-only, not secure and no SameSite attribute. -/

inductive SameSitePolicy where
  | strict
  | lax
  | noneValue
deriving DecidableEq, Repr

structure Cookie where
  name : List Char
  value : List Char
  path : Option (List Char)
  http_only : Bool
  secure : Bool
  same_site : Option SameSitePolicy
deriving DecidableEq, Repr

def cookieBuild (name value : List Char) : Cookie :=
  ⟨name, value, none, false, false, none⟩

def Cookie.setPath (c : Cookie) (p : List Char) : Cookie := { c with path := some p }

def Cookie.setHttpOnly (c : Cookie) (b : Bool) : Cookie := { c with http_only := b }

def Cookie.setSecure (c : Cookie) (b : Bool) : Cookie := { c with secure := b }

def Cookie.setSameSite (c : Cookie) (s : SameSitePolicy) : Cookie :=
  { c with same_site := some s }

/-- The cookie built by the server callback (`callback_inner`): the value is
the signed session reference produced by `uuid_as_token` over the session's
v7 uuid bytes. -/
def serverCallbackCookie (mac : List Nat → List Nat → List Nat) (secret : List Char)
    (session_id : List Nat) : Cookie :=
  (((cookieBuild SESSION_COOKIE_NAME
      (uuid_as_token mac secret session_id)).setPath "/".toList).setHttpOnly
    true).setSecure true

/-- The cookie built by the web callback: the value is `encode_session` of
the raw claims. -/
def webCallbackCookie (s : UserSession) : Cookie :=
  ((((cookieBuild SESSION_COOKIE_NAME
      (encode_session s)).setPath "/".toList).setHttpOnly true).setSameSite
    SameSitePolicy.lax).setSecure false

/-- The attribute set demanded by the spec sentence for C8:
HttpOnly; Secure; Path=/; SameSite=Lax. -/
def specCookieAttrs (c : Cookie) : Bool :=
  c.http_only && c.secure && decide (c.path = some "/".toList)
    && decide (c.same_site = some SameSitePolicy.lax)

def c8Mac : List Nat → List Nat → List Nat := fun _ _ => [9, 8]

def c8Id : List Nat := [0, 17]

def c8Session : UserSession :=
  ⟨"u1".toList, "alice".toList, "Alice".toList, ["g1".toList], "tok".toList⟩

/-- C8 counterexample: neither callback's cookie carries the full attribute
set `HttpOnly; Secure; Path=/; SameSite=Lax` the spec states.  The server
cookie has no SameSite attribute at all; the web cookie is not Secure, and
its value is the raw-claims encoding rather than a signed reference. -/
theorem C8_counterexample :
    (serverCallbackCookie c8Mac "s".toList c8Id).same_site = none
    ∧ specCookieAttrs (serverCallbackCookie c8Mac "s".toList c8Id) = false
    ∧ (webCallbackCookie c8Session).secure = false
    ∧ specCookieAttrs (webCallbackCookie c8Session) = false
    ∧ (webCallbackCookie c8Session).value = encode_session c8Session :=
  ⟨rfl, rfl, rfl, rfl, rfl⟩

/-- C8 (amended): the server callback cookie has name `authit_session`,
value the signed reference `{canonical_id}.{signature}` (it splits on `.` into
exactly the hex id and the signature), Path=/, HttpOnly, Secure, and **no**
SameSite attribute; the web callback cookie carries the raw-claims value
`encode_session s` with Path=/, HttpOnly, SameSite=Lax and Secure **false**. -/
theorem C8_cookie (mac : List Nat → List Nat → List Nat)
    (hmac : ∀ k m : List Nat, ∀ b ∈ mac k m, b < 256) (secret : List Char)
    (session_id : List Nat) (hbytes : ∀ b ∈ session_id, b < 256) :
    serverCallbackCookie mac secret session_id
      = ⟨SESSION_COOKIE_NAME, uuid_as_token mac secret session_id,
          some "/".toList, true, true, none⟩
    ∧ splitOnChar dotChar (serverCallbackCookie mac secret session_id).value
        = [hexEncode session_id,
           b64Encode (mac (utf8Encode secret) (utf8Encode (hexEncode session_id)))]
    ∧ (∀ s : UserSession, webCallbackCookie s
        = ⟨SESSION_COOKIE_NAME, encode_session s, some "/".toList, true, false,
            some SameSitePolicy.lax⟩) := by
  have hnd_u : dotChar ∉ hexEncode session_id := hexEncode_no_dot _ hbytes
  have hnd_s : dotChar ∉
      b64Encode (mac (utf8Encode secret) (utf8Encode (hexEncode session_id))) :=
    b64Encode_no_dot _ (hmac _ _)
  have hvalue : (serverCallbackCookie mac secret session_id).value
      = hexEncode session_id
        ++ (dotChar ::
            b64Encode (mac (utf8Encode secret) (utf8Encode (hexEncode session_id)))) := rfl
  refine ⟨rfl, ?_, fun s => rfl⟩
  rw [hvalue, splitOnChar_append _ _ _ hnd_u, splitOnChar_of_not_mem _ _ hnd_s]

/-- Witness for C8 at a concrete mac, secret and session id. -/
theorem C8_cookie_witness :
    serverCallbackCookie c8Mac "s".toList c8Id
      = ⟨SESSION_COOKIE_NAME, uuid_as_token c8Mac "s".toList c8Id,
          some "/".toList, true, true, none⟩
    ∧ splitOnChar dotChar (serverCallbackCookie c8Mac "s".toList c8Id).value
        = [hexEncode c8Id,
           b64Encode (c8Mac (utf8Encode "s".toList) (utf8Encode (hexEncode c8Id)))]
    ∧ (∀ s : UserSession, webCallbackCookie s
        = ⟨SESSION_COOKIE_NAME, encode_session s, some "/".toList, true, false,
            some SameSitePolicy.lax⟩) := by
  have hmac : ∀ k m : List Nat, ∀ b ∈ c8Mac k m, b < 256 := by
    intro k m b hb
    simp only [c8Mac, List.mem_cons, List.not_mem_nil, or_false] at hb
    rcases hb with rfl | rfl <;> omega
  have hbytes : ∀ b ∈ c8Id, b < 256 := by
    intro b hb
    simp only [c8Id, List.mem_cons, List.not_mem_nil, or_false] at hb
    rcases hb with rfl | rfl <;> omega
  exact C8_cookie c8Mac hmac "s".toList c8Id hbytes

/-! ### C9: translating a raw identity-provider person entry

`src/types/src/kanidm.rs`: `TryFrom<RawPerson> for Person` takes the first
element of each attribute list; `uuid`, `name` **and** `displayname` are all
required (each missing one is an error), while empty `mail` / `memberof`
simply give empty `email_addresses` / `groups`.  A missing attribute shows
up as an empty list. -/

structure PersonAttrs where
  uuid : List (List Nat)
  name : List (List Char)
  displayname : List (List Char)
  mail : List (List Char)
  memberof : List (List Char)
deriving DecidableEq, Repr

structure RawPerson where
  attrs : PersonAttrs
deriving DecidableEq, Repr

structure Person where
  uuid : List Nat
  name : List Char
  display_name : List Char
  email_addresses : List (List Char)
  groups : List (List Char)
deriving DecidableEq, Repr

inductive TranslateError where
  | missingUuid         -- "missing uuid for person"
  | missingName         -- "missing name for person"
  | missingDisplayname  -- "missing displayname for person"
deriving DecidableEq, Repr

def Person.tryFrom (value : RawPerson) : Except TranslateError Person :=
  let attrs := value.attrs
  match attrs.uuid.head? with
  | none => .error .missingUuid
  | some uuid =>
    match attrs.name.head? with
    | none => .error .missingName
    | some name =>
      match attrs.displayname.head? with
      | none => .error .missingDisplayname
      | some display_name =>
        .ok ⟨uuid, name, display_name, attrs.mail, attrs.memberof⟩

def c9Raw : RawPerson := ⟨⟨[[1]], ["alice".toList], [], [], []⟩⟩

def c9OkRaw : RawPerson :=
  ⟨⟨[[2]], ["bob".toList], ["Bob".toList], ["b@example.com".toList], ["g1".toList]⟩⟩

/-- C9 counterexample: a raw entry whose required `uuid` and `name` are both
present but whose `displayname` is missing is rejected with
"missing displayname for person" — `displayname` is required by the code,
not defaulted as the spec states. -/
theorem C9_counterexample :
    c9Raw.attrs.uuid ≠ [] ∧ c9Raw.attrs.name ≠ []
    ∧ Person.tryFrom c9Raw = .error .missingDisplayname :=
  ⟨by decide, by decide, rfl⟩

/-- C9 (amended): translation fails exactly when `uuid`, `name` or
`displayname` is missing (in that priority order), and on success the
optional attributes `mail` and `memberof` are carried over as-is — in
particular empty lists give empty `email_addresses` / `groups`. -/
theorem C9_translation (raw : RawPerson) :
    (Person.tryFrom raw = .error .missingUuid ↔ raw.attrs.uuid = [])
    ∧ (Person.tryFrom raw = .error .missingName ↔
        raw.attrs.uuid ≠ [] ∧ raw.attrs.name = [])
    ∧ (Person.tryFrom raw = .error .missingDisplayname ↔
        raw.attrs.uuid ≠ [] ∧ raw.attrs.name ≠ [] ∧ raw.attrs.displayname = [])
    ∧ ((Person.tryFrom raw).isOk = true ↔
        raw.attrs.uuid ≠ [] ∧ raw.attrs.name ≠ [] ∧ raw.attrs.displayname ≠ [])
    ∧ (∀ p, Person.tryFrom raw = .ok p →
        p.email_addresses = raw.attrs.mail ∧ p.groups = raw.attrs.memberof
        ∧ some p.uuid = raw.attrs.uuid.head?
        ∧ some p.name = raw.attrs.name.head?
        ∧ some p.display_name = raw.attrs.displayname.head?) := by
  obtain ⟨⟨u, n, d, m, g⟩⟩ := raw
  cases u <;> cases n <;> cases d <;>
    simp [Person.tryFrom, Except.isOk, Except.toBool]

/-- Witness for C9's amended theorem at a fully-populated raw entry. -/
theorem C9_translation_witness :
    Person.tryFrom c9OkRaw
      = .ok ⟨[2], "bob".toList, "Bob".toList, ["b@example.com".toList], ["g1".toList]⟩
    ∧ (Person.tryFrom c9OkRaw).isOk = true
    ∧ (⟨[2], "bob".toList, "Bob".toList, ["b@example.com".toList],
          ["g1".toList]⟩ : Person).email_addresses = c9OkRaw.attrs.mail :=
  ⟨rfl, ((C9_translation c9OkRaw).2.2.2.1).mpr (by decide),
    ((C9_translation c9OkRaw).2.2.2.2 _ rfl).1⟩

end Authit
